import Mathlib

/-!
# Verification of the naicreport core (Jobanalyzer)

A shallow embedding, in Lean 4, of the `naicreport` subsystem of the
Jobanalyzer repository: the free-CSV codec and its typed field accessors
(`storage/storage.go`), the persistent job-state store (`jobstate/jobstate.go`),
the cpuhog event-log ingester and report generator (`mlcpuhog/mlcpuhog.go`),
the time-specifier parser (`util/options.go`), the report sorter
(`util`, `SortReports`), and the load-report parser and plot writer
(`mlwebload/mlwebload.go`).

Modelling conventions:
* `time.Time` values are modelled as `Int`, seconds since the Unix epoch,
  always in UTC.  Go's calendar-day arithmetic (`AddDate(0, 0, n)`) on UTC
  times adds exactly `n * 86400` seconds, and truncation to a UTC day
  boundary (`time.Date(t.Year(), t.Month(), t.Day(), 0, 0, 0, 0, time.UTC)`)
  is flooring to a multiple of 86400.
* `float64` values are modelled as `ℚ`; the float fields of this program are
  percentages combined only by `math.Max` and division by constants, so the
  ordered-field structure is what matters (NaN/rounding behaviour is not
  exercised by the properties below).
* Go maps are modelled as association lists; the list order stands for the
  (unspecified) iteration order of the map, and theorems that depend on a map
  being a map carry a no-duplicate-keys hypothesis.
* Fallible operations return `Option`; a run-time panic (nil-pointer
  dereference, out-of-range index) is modelled as `none`.
-/

/-- Seconds per UTC day (`time.Time` has no leap seconds). -/
def secPerDay : Int := 86400

/-- util.MinTime: `if a.Before(b) { return a }; return b`. -/
def minTime (a b : Int) : Int := if a < b then a else b

/-- util.MaxTime: `if a.After(b) { return a }; return b`. -/
def maxTime (a b : Int) : Int := if b < a then a else b

/-- Go `t.AddDate(0, 0, n)` for a UTC instant: add `n` calendar days. -/
def addDays (t : Int) (n : Int) : Int := t + n * secPerDay

/-- Go `time.Date(t.Year(), t.Month(), t.Day(), 0, 0, 0, 0, time.UTC)`:
truncate a UTC instant to its UTC midnight. -/
def truncDay (t : Int) : Int := t - t.emod secPerDay

/-- Civil date (year, month, day) of a day count relative to 1970-01-01,
proleptic Gregorian; the algorithm used by Go's `time.absDate`
(equivalently Hinnant's `civil_from_days`). -/
def civilFromDays (z : Int) : Int × Int × Int :=
  let zz := z + 719468
  let era := zz / 146097
  let doe := zz - era * 146097
  let yoe := (doe - doe / 1460 + doe / 36524 - doe / 146096) / 365
  let y := yoe + era * 400
  let doy := doe - (365 * yoe + yoe / 4 - yoe / 100)
  let mp := (5 * doy + 2) / 153
  let d := doy - (153 * mp + 2) / 5 + 1
  let m := mp + (if mp < 10 then 3 else -9)
  (y + (if m ≤ 2 then 1 else 0), m, d)

/-- Days since 1970-01-01 of a civil date with month already normalised to
1..12 (Hinnant's `days_from_civil`, as used by Go's date-to-instant
conversion). -/
def daysFromCivil (y m d : Int) : Int :=
  let yy := y - (if m ≤ 2 then 1 else 0)
  let era := yy / 400
  let yoe := yy - era * 400
  let doy := (153 * (m + (if m > 2 then -3 else 9)) + 2) / 5 + d - 1
  let doe := yoe * 365 + yoe / 4 - yoe / 100 + doy
  era * 146097 + doe - 719468

/-- Go `time.Date(y, m, d, 0, 0, 0, 0, time.UTC).Unix()`: the month is first
normalised into 1..12 (shifting the year), then the possibly out-of-range day
is absorbed by the linear day term, exactly as Go's `norm`/`daysSinceEpoch`
do. -/
def dateUTC (y m d : Int) : Int :=
  let yadj := y + (m - 1) / 12
  let mo := (m - 1).emod 12 + 1
  secPerDay * daysFromCivil yadj mo d

/-- Key bounds for Hinnant's year-of-era extraction: for a day-of-era in
`[0, 146096]` the extracted year-of-era lies in `[0, 399]` and the
corresponding day-of-year lies in `[0, 365]`. -/
theorem yoeDoyBounds (doe q1 q2 q3 yoe s4 s100 : Int)
    (h0 : 0 ≤ doe) (h1 : doe ≤ 146096)
    (hq1 : q1 = doe / 1460) (hq2 : q2 = doe / 36524) (hq3 : q3 = doe / 146096)
    (hyoe : yoe = (doe - q1 + q2 - q3) / 365)
    (hs4 : s4 = yoe / 4) (hs100 : s100 = yoe / 100) :
    0 ≤ yoe ∧ yoe ≤ 399 ∧
    0 ≤ doe - (365 * yoe + s4 - s100) ∧
    doe - (365 * yoe + s4 - s100) ≤ 365 := by
  have hb4 : 0 ≤ s100 ∧ s100 ≤ 3 := by omega
  obtain ⟨hb1, hb2⟩ := hb4
  interval_cases s100 <;> omega

/-- On day counts for the years 1970..9999, `daysFromCivil` inverts
`civilFromDays`, and the civil fields produced are in range. -/
theorem civilInverse (z : Int) (h0 : 0 ≤ z) (h1 : z ≤ 2932896) :
    ∀ y m d : Int, civilFromDays z = (y, m, d) →
      daysFromCivil y m d = z ∧
      1 ≤ m ∧ m ≤ 12 ∧ 1 ≤ d ∧ d ≤ 31 ∧ 1970 ≤ y ∧ y ≤ 9999 := by
  intro y m d h
  simp only [civilFromDays, Prod.mk.injEq] at h
  obtain ⟨hy, hm, hd⟩ := h
  set zz : Int := z + 719468 with hzz
  set era : Int := zz / 146097 with hera
  set doe : Int := zz - era * 146097 with hdoe
  set q1 : Int := doe / 1460 with hq1
  set q2 : Int := doe / 36524 with hq2
  set q3 : Int := doe / 146096 with hq3
  set yoe : Int := (doe - q1 + q2 - q3) / 365 with hyoe
  set s4 : Int := yoe / 4 with hs4
  set s100 : Int := yoe / 100 with hs100
  set doy : Int := doe - (365 * yoe + s4 - s100) with hdoy
  set mp : Int := (5 * doy + 2) / 153 with hmp
  set t5 : Int := (153 * mp + 2) / 5 with ht5
  have hdoeb : 0 ≤ doe ∧ doe ≤ 146096 := by omega
  have key := yoeDoyBounds doe q1 q2 q3 yoe s4 s100 hdoeb.1 hdoeb.2
    hq1 hq2 hq3 hyoe hs4 hs100
  rw [← hdoy] at key
  have hmpb : 0 ≤ mp ∧ mp ≤ 11 := by omega
  have ht5b : t5 ≤ doy ∧ doy - t5 ≤ 30 := by omega
  have herab : 0 ≤ era ∧ era ≤ 24 := by omega
  have hy400 : (yoe + era * 400) / 400 = era := by omega
  have hs4b : (yoe + era * 400 - (yoe + era * 400) / 400 * 400) / 4 = s4 := by omega
  have hs100b : (yoe + era * 400 - (yoe + era * 400) / 400 * 400) / 100 = s100 := by omega
  have hyLow : 1969 ≤ yoe + era * 400 := by omega
  have hyLow2 : mp < 10 → 1970 ≤ yoe + era * 400 := by omega
  have hyHigh : yoe + era * 400 ≤ 9999 := by omega
  have hyHigh2 : 10 ≤ mp → yoe + era * 400 ≤ 9998 := by omega
  simp only [daysFromCivil]
  subst hy hm hd
  split_ifs <;>
    simp only [add_zero, sub_zero, add_sub_cancel_right, add_neg_cancel_right,
      neg_add_cancel_right] <;>
    omega

/-- The decimal digit characters, as printed by Go's integer formatting. -/
def digitChar : Nat → Char
  | 0 => '0' | 1 => '1' | 2 => '2' | 3 => '3' | 4 => '4'
  | 5 => '5' | 6 => '6' | 7 => '7' | 8 => '8' | _ => '9'

/-- Numeric value of a decimal digit character. -/
def digitVal (c : Char) : Nat := c.toNat - 48

theorem digitVal_digitChar (n : Nat) (h : n < 10) : digitVal (digitChar n) = n := by
  interval_cases n <;> rfl

theorem isDigit_digitChar (n : Nat) (h : n < 10) : (digitChar n).isDigit = true := by
  interval_cases n <;> rfl

/-- Zero-padded two-digit decimal field, as in Go's `%02d` (with the argument
in 0..99, which is the case everywhere it is used here). -/
def pad2 (n : Nat) : List Char := [digitChar (n / 10 % 10), digitChar (n % 10)]

/-- Zero-padded four-digit decimal field, as in Go's `%04d` (argument in
0..9999). -/
def pad4 (n : Nat) : List Char :=
  [digitChar (n / 1000 % 10), digitChar (n / 100 % 10),
   digitChar (n / 10 % 10), digitChar (n % 10)]

/-- Little-endian decimal digits of `n`, with explicit fuel so that the
definition is structurally recursive (fuel `n` always suffices). -/
def digitsAux : Nat → Nat → List Nat
  | _, 0 => []
  | 0, _ + 1 => []
  | fuel + 1, n + 1 => (n + 1) % 10 :: digitsAux fuel ((n + 1) / 10)

/-- Little-endian decimal digits of a natural number. -/
def natDigits (n : Nat) : List Nat := digitsAux n n

/-- Go `strconv.FormatUint(n, 10)` (also `fmt` `%d` for non-negative
arguments): most-significant-first decimal digits, `"0"` for zero. -/
def formatNat (n : Nat) : String :=
  if n = 0 then "0" else String.mk ((natDigits n).reverse.map digitChar)

/-- Value of a most-significant-first digit-character list, the accumulation
a decimal scanner performs. -/
def parseNatChars (cs : List Char) : Nat := cs.foldl (fun a c => 10 * a + digitVal c) 0

/-- Go `strconv.ParseUint(s, 10, 64)` restricted to plain decimal strings:
requires at least one character and only digits (no sign, no underscores). -/
def parseNat (s : String) : Option Nat :=
  if s.data ≠ [] ∧ s.data.all Char.isDigit then some (parseNatChars s.data) else none

theorem digitsAux_lt_ten (fuel n : Nat) : ∀ d ∈ digitsAux fuel n, d < 10 := by
  induction fuel generalizing n with
  | zero => cases n <;> simp [digitsAux]
  | succ f ih =>
    cases n with
    | zero => simp [digitsAux]
    | succ m =>
      simp only [digitsAux, List.mem_cons]
      rintro d (rfl | hd)
      · exact Nat.mod_lt _ (by norm_num)
      · exact ih _ d hd

/-- Value of a little-endian digit list. -/
def ofRevDigits (l : List Nat) : Nat := l.foldr (fun d acc => d + 10 * acc) 0

theorem ofRevDigits_digitsAux (fuel n : Nat) (h : n ≤ fuel) :
    ofRevDigits (digitsAux fuel n) = n := by
  induction fuel generalizing n with
  | zero => interval_cases n; simp [digitsAux, ofRevDigits]
  | succ f ih =>
    cases n with
    | zero => simp [digitsAux, ofRevDigits]
    | succ m =>
      have hle : (m + 1) / 10 ≤ f := by
        have := Nat.div_le_self (m + 1) 10
        have h2 : (m + 1) / 10 < m + 1 := Nat.div_lt_self (Nat.succ_pos m) (by norm_num)
        omega
      simp only [digitsAux, ofRevDigits, List.foldr_cons]
      have := ih ((m + 1) / 10) hle
      simp only [ofRevDigits] at this
      rw [this]
      omega

theorem parseNatChars_digits (l : List Nat) (h : ∀ d ∈ l, d < 10) :
    parseNatChars (l.reverse.map digitChar) = ofRevDigits l := by
  induction l with
  | nil => rfl
  | cons d t ih =>
    have hd : d < 10 := h d (List.mem_cons_self d t)
    have ht : ∀ x ∈ t, x < 10 := fun x hx => h x (List.mem_cons_of_mem d hx)
    simp only [List.reverse_cons, List.map_append, List.map_cons, List.map_nil,
      parseNatChars, List.foldl_append, List.foldl_cons, List.foldl_nil, ofRevDigits,
      List.foldr_cons]
    rw [digitVal_digitChar d hd]
    have := ih ht
    simp only [parseNatChars, ofRevDigits] at this
    rw [this]
    omega

/-- Decimal print-then-scan round trip. -/
theorem parseNat_formatNat (n : Nat) : parseNat (formatNat n) = some n := by
  by_cases h0 : n = 0
  · subst h0; rfl
  · have hdig : ∀ d ∈ natDigits n, d < 10 := digitsAux_lt_ten n n
    have hne : natDigits n ≠ [] := by
      cases n with
      | zero => omega
      | succ m => simp [natDigits, digitsAux]
    simp only [formatNat, if_neg h0, parseNat]
    have hall : ((natDigits n).reverse.map digitChar).all Char.isDigit = true := by
      simp only [List.all_eq_true, List.mem_map, List.mem_reverse]
      rintro c ⟨d, hd, rfl⟩
      exact isDigit_digitChar d (hdig d hd)
    have hnonempty : ((natDigits n).reverse.map digitChar) ≠ [] := by
      simp only [ne_eq, List.map_eq_nil_iff, List.reverse_eq_nil_iff]
      exact hne
    rw [if_pos ⟨hnonempty, hall⟩]
    rw [parseNatChars_digits _ hdig,
      show ofRevDigits (natDigits n) = n from ofRevDigits_digitsAux n n le_rfl]

theorem digitVal_digitChar_mod (n : Nat) : digitVal (digitChar (n % 10)) = n % 10 :=
  digitVal_digitChar _ (Nat.mod_lt _ (by norm_num))

theorem isDigit_digitChar_mod (n : Nat) : (digitChar (n % 10)).isDigit = true :=
  isDigit_digitChar _ (Nat.mod_lt _ (by norm_num))

/-- Go `t.Format(time.RFC3339)` for a whole-second UTC instant with year in
1970..9999: the fixed shape `YYYY-MM-DDTHH:MM:SSZ`. -/
def formatRFC3339 (t : Int) : String :=
  let c := civilFromDays (t / secPerDay)
  let r := t.emod secPerDay
  String.mk (pad4 c.1.toNat ++ '-' :: pad2 c.2.1.toNat ++ '-' :: pad2 c.2.2.toNat ++
    'T' :: pad2 (r / 3600).toNat ++ ':' :: pad2 (r.emod 3600 / 60).toNat ++
    ':' :: pad2 (r.emod 60).toNat ++ ['Z'])

/-- Interpretation of validated RFC3339 fields as a UTC instant. -/
def rfc3339FromFields (y mo d hh mi ss : Nat) : Option Int :=
  if 1 ≤ mo ∧ mo ≤ 12 ∧ 1 ≤ d ∧ d ≤ 31 ∧ hh ≤ 23 ∧ mi ≤ 59 ∧ ss ≤ 59 then
    some (secPerDay * daysFromCivil (y : Int) (mo : Int) (d : Int) +
      3600 * (hh : Int) + 60 * (mi : Int) + (ss : Int))
  else none

/-- Go `time.Parse(time.RFC3339, s)` restricted to the canonical UTC
whole-second shape `YYYY-MM-DDTHH:MM:SSZ` that this program writes
(fractional seconds and numeric zone offsets, which Go would also accept,
never occur in the state files the program itself produces).  Go validates
the field ranges; the day check here is the uniform `d ≤ 31` rather than the
per-month length, which agrees with Go on every string produced by
`formatRFC3339`. -/
def parseRFC3339 (s : String) : Option Int :=
  match s.data with
  | [y1, y2, y3, y4, '-', o1, o2, '-', d1, d2, 'T',
     a1, a2, ':', b1, b2, ':', c1, c2, 'Z'] =>
    if ([y1, y2, y3, y4, o1, o2, d1, d2, a1, a2, b1, b2, c1, c2].all Char.isDigit) then
      rfc3339FromFields
        (1000 * digitVal y1 + 100 * digitVal y2 + 10 * digitVal y3 + digitVal y4)
        (10 * digitVal o1 + digitVal o2)
        (10 * digitVal d1 + digitVal d2)
        (10 * digitVal a1 + digitVal a2)
        (10 * digitVal b1 + digitVal b2)
        (10 * digitVal c1 + digitVal c2)
    else none
  | _ => none

/-- RFC3339 print-then-scan round trip on whole-second UTC instants from
1970-01-01 up to the end of year 9999. -/
theorem parseRFC3339_formatRFC3339 (t : Int) (h0 : 0 ≤ t) (h1 : t < 253402300800) :
    parseRFC3339 (formatRFC3339 t) = some t := by
  have hz0 : 0 ≤ t / secPerDay := by simp only [secPerDay]; omega
  have hz1 : t / secPerDay ≤ 2932896 := by simp only [secPerDay]; omega
  rcases hcv : civilFromDays (t / secPerDay) with ⟨y, m, d⟩
  obtain ⟨hinv, hm1, hm2, hd1, hd2, hy1, hy2⟩ :=
    civilInverse (t / secPerDay) hz0 hz1 y m d hcv
  have hr0 : 0 ≤ t.emod 86400 := Int.emod_nonneg t (by norm_num)
  have hr1 : t.emod 86400 < 86400 := Int.emod_lt_of_pos t (by norm_num)
  simp only [secPerDay] at hinv hz0 hz1 hcv
  simp only [formatRFC3339, hcv, secPerDay, pad4, pad2, parseRFC3339, List.cons_append,
    List.nil_append, List.append_assoc]
  simp only [List.all_cons, List.all_nil, isDigit_digitChar_mod, Bool.and_self,
    Bool.true_and, if_true]
  simp only [digitVal_digitChar_mod]
  have hyv : 1000 * (y.toNat / 1000 % 10) + 100 * (y.toNat / 100 % 10) +
      10 * (y.toNat / 10 % 10) + y.toNat % 10 = y.toNat := by omega
  have hmv : 10 * (m.toNat / 10 % 10) + m.toNat % 10 = m.toNat := by omega
  have hdv : 10 * (d.toNat / 10 % 10) + d.toNat % 10 = d.toNat := by omega
  rw [hyv, hmv, hdv]
  have hu3600 : 0 ≤ (t.emod 86400).emod 3600 ∧ (t.emod 86400).emod 3600 < 3600 :=
    ⟨Int.emod_nonneg _ (by norm_num), Int.emod_lt_of_pos _ (by norm_num)⟩
  have hu60 : 0 ≤ (t.emod 86400).emod 60 ∧ (t.emod 86400).emod 60 < 60 :=
    ⟨Int.emod_nonneg _ (by norm_num), Int.emod_lt_of_pos _ (by norm_num)⟩
  have hhv : 10 * ((t.emod 86400 / 3600).toNat / 10 % 10) +
      (t.emod 86400 / 3600).toNat % 10 = (t.emod 86400 / 3600).toNat := by
    omega
  have hmiv : 10 * (((t.emod 86400).emod 3600 / 60).toNat / 10 % 10) +
      ((t.emod 86400).emod 3600 / 60).toNat % 10 =
      ((t.emod 86400).emod 3600 / 60).toNat := by
    omega
  have hssv : 10 * (((t.emod 86400).emod 60).toNat / 10 % 10) +
      ((t.emod 86400).emod 60).toNat % 10 = ((t.emod 86400).emod 60).toNat := by
    omega
  rw [hhv, hmiv, hssv]
  simp only [rfc3339FromFields, secPerDay]
  have hcy : ((y.toNat : Int)) = y := Int.toNat_of_nonneg (by omega)
  have hcm : ((m.toNat : Int)) = m := Int.toNat_of_nonneg (by omega)
  have hcd : ((d.toNat : Int)) = d := Int.toNat_of_nonneg (by omega)
  have hid0 : 86400 * (t / 86400) + t.emod 86400 = t := Int.ediv_add_emod _ _
  have hid1 : 3600 * (t.emod 86400 / 3600) + (t.emod 86400).emod 3600 = t.emod 86400 :=
    Int.ediv_add_emod _ _
  have hid2 : 60 * ((t.emod 86400).emod 3600 / 60) + ((t.emod 86400).emod 3600).emod 60 =
      (t.emod 86400).emod 3600 := Int.ediv_add_emod _ _
  have hid3 : ((t.emod 86400).emod 3600).emod 60 = (t.emod 86400).emod 60 :=
    Int.emod_emod_of_dvd _ (by norm_num)
  rw [hcy, hcm, hcd, hinv]
  split_ifs with hg
  · simp only [Option.some.injEq]
    omega
  · exfalso
    apply hg
    omega

/-- Interpretation of validated `YYYY-MM-DD HH:MM` fields as a UTC instant. -/
def dateTimeFromFields (y mo d hh mi : Nat) : Option Int :=
  if 1 ≤ mo ∧ mo ≤ 12 ∧ 1 ≤ d ∧ d ≤ 31 ∧ hh ≤ 23 ∧ mi ≤ 59 then
    some (secPerDay * daysFromCivil (y : Int) (mo : Int) (d : Int) +
      3600 * (hh : Int) + 60 * (mi : Int))
  else none

/-- Go `time.Parse(util.DateTimeFormat, s)` with `DateTimeFormat =
"2006-01-02 15:04"`: the minute-precision timestamp format used by all the
event logs.  As with `parseRFC3339`, the day-of-month check is the uniform
`d ≤ 31`. -/
def parseDateTime (s : String) : Option Int :=
  match s.data with
  | [y1, y2, y3, y4, '-', o1, o2, '-', d1, d2, ' ', a1, a2, ':', b1, b2] =>
    if ([y1, y2, y3, y4, o1, o2, d1, d2, a1, a2, b1, b2].all Char.isDigit) then
      dateTimeFromFields
        (1000 * digitVal y1 + 100 * digitVal y2 + 10 * digitVal y3 + digitVal y4)
        (10 * digitVal o1 + digitVal o2)
        (10 * digitVal d1 + digitVal d2)
        (10 * digitVal a1 + digitVal a2)
        (10 * digitVal b1 + digitVal b2)
    else none
  | _ => none

/-- Go `t.Format(util.DateTimeFormat)`: `YYYY-MM-DD HH:MM`, minute
precision, UTC. -/
def formatDateTime (t : Int) : String :=
  let c := civilFromDays (t / secPerDay)
  let r := t.emod secPerDay
  String.mk (pad4 c.1.toNat ++ '-' :: pad2 c.2.1.toNat ++ '-' :: pad2 c.2.2.toNat ++
    ' ' :: pad2 (r / 3600).toNat ++ ':' :: pad2 (r.emod 3600 / 60).toNat)

/-- Go `strconv.FormatBool`. -/
def formatBool (b : Bool) : String := if b then "true" else "false"

/-- Go `strconv.ParseBool`: accepts exactly these twelve strings. -/
def parseBool (s : String) : Option Bool :=
  match s with
  | "1" => some true
  | "t" => some true
  | "T" => some true
  | "TRUE" => some true
  | "true" => some true
  | "True" => some true
  | "0" => some false
  | "f" => some false
  | "F" => some false
  | "FALSE" => some false
  | "false" => some false
  | "False" => some false
  | _ => none

/-- Go `strconv.ParseUint(s, 10, 32)` in the success case: plain decimal
digits and value below 2^32 (on a range error Go returns the clamped value
together with a non-nil error, which every checked caller treats as
failure). -/
def parseUint32 (s : String) : Option Nat :=
  (parseNat s).bind (fun v => if v < 4294967296 then some v else none)

/-- Go `strconv.ParseUint(s, 10, 32)` with the error ignored, as done by
`matchWhen` in util/options.go: a syntactically valid decimal whose value
overflows 32 bits is clamped to 2^32 - 1 (Go returns the maximum magnitude
of the requested bit size together with ErrRange). -/
def parseUint32Sat (cs : List Char) : Nat :=
  min (parseNatChars cs) 4294967295

/-- Go `strconv.ParseFloat(s, 64)` restricted to plain decimal notation
(optional sign, integer digits, optional fraction).  Exponents, hex floats
and inf/NaN spellings, which Go would also accept, do not occur in this
program's data and are not modelled; float64 values are modelled as exact
rationals.  The decimal `ip.fs` is encoded as the single fraction
`(ip * 10 ^ len + fs) / 10 ^ len` via `mkRat`; `parseRat_value` below checks
that this equals `ip + fs / 10 ^ len`. -/
def parseRat (s : String) : Option ℚ :=
  let signed : Bool × List Char :=
    match s.data with
    | '-' :: rest => (true, rest)
    | '+' :: rest => (false, rest)
    | cs => (false, cs)
  let ip := signed.2.takeWhile Char.isDigit
  let rest := signed.2.dropWhile Char.isDigit
  let fracPart : Option (List Char) :=
    match rest with
    | [] => some []
    | '.' :: fs => if fs.all Char.isDigit then some fs else none
    | _ => none
  match fracPart with
  | none => none
  | some fs =>
    if ip.isEmpty && fs.isEmpty then none
    else
      let den : Nat := 10 ^ fs.length
      let num : Int := (parseNatChars ip : Int) * den + (parseNatChars fs : Int)
      some (mkRat (if signed.1 then -num else num) den)

theorem parseRat_value (ip fs len : Nat) :
    (mkRat ((ip : Int) * ((10 : Nat) ^ len : Nat) + (fs : Int)) ((10 : Nat) ^ len) : ℚ) =
      (ip : ℚ) + (fs : ℚ) / ((10 : ℚ) ^ len) := by
  have h : ((10 : ℚ)) ^ len ≠ 0 := by positivity
  rw [Rat.mkRat_eq_div]
  push_cast
  field_simp

/-- A free-CSV row after parsing: a mapping from field names to field value
strings (storage.ParseFreeCSV builds a Go map; iteration order never
matters for rows, only lookup). -/
abbrev RawRow := List (String × String)

/-- Go map lookup `record[tag]` on a parsed row. -/
def lookupField (r : RawRow) (tag : String) : Option String :=
  (r.find? (fun p => p.1 == tag)).map Prod.snd

/-- The typed accessors of storage/storage.go thread a shared `*success`
flag: each returns a zero value and clears the flag on a missing field or a
parse error, and a row is consumed only when the flag survived every
accessor.  That protocol is modelled by `Option`-composition: the row
parser below yields `none` exactly when some accessor would have cleared
the flag. -/
def getString (r : RawRow) (tag : String) : Option String := lookupField r tag

/-- storage.GetUint32. -/
def getUint32 (r : RawRow) (tag : String) : Option Nat :=
  (lookupField r tag).bind parseUint32

/-- Go `strings.TrimRight(s, "<>!")`. -/
def trimJobMark (s : String) : String :=
  String.mk ((s.data.reverse.dropWhile (fun c => c == '<' || c == '>' || c == '!')).reverse)

/-- storage.GetJobMark: a job number with an optional trailing `<`, `>` or
`!` marker, marker stripped. -/
def getJobMark (r : RawRow) (tag : String) : Option Nat :=
  (lookupField r tag).bind (fun s => parseUint32 (trimJobMark s))

/-- storage.GetFloat64. -/
def getFloat64 (r : RawRow) (tag : String) : Option ℚ :=
  (lookupField r tag).bind parseRat

/-- storage.GetBool. -/
def getBool (r : RawRow) (tag : String) : Option Bool :=
  (lookupField r tag).bind parseBool

/-- storage.GetDateTime. -/
def getDateTime (r : RawRow) (tag : String) : Option Int :=
  (lookupField r tag).bind parseDateTime

/-- storage.GetRFC3339. -/
def getRFC3339 (r : RawRow) (tag : String) : Option Int :=
  (lookupField r tag).bind parseRFC3339

/-- jobstate.JobKey: `(job id, host)`, unique per logical job. -/
structure JobKey where
  id : Nat
  host : String
deriving DecidableEq

/-- jobstate.JobState: one persistent row per job key. -/
structure JobState where
  id : Nat
  host : String
  startedOnOrBefore : Int
  firstViolation : Int
  lastSeen : Int
  isReported : Bool
deriving DecidableEq

/-- The persistent state: a Go map from JobKey to JobState, modelled as an
association list in iteration order. -/
abbrev StateMap := List (JobKey × JobState)

/-- Splitting a free-CSV field at its first `=`:
`ix := strings.IndexByte(f, '='); m[f[:ix]] = f[ix+1:]` in
storage.ParseFreeCSV.  `none` models a field with no `=`, which is
silently dropped. -/
def splitEqChars : List Char → Option (List Char × List Char)
  | [] => none
  | c :: rest =>
    if c = '=' then some ([], rest)
    else (splitEqChars rest).map (fun p => (c :: p.1, p.2))

/-- Field splitting on strings. -/
def splitEq (s : String) : Option (String × String) :=
  (splitEqChars s.data).map (fun p => (String.mk p.1, String.mk p.2))

/-- storage.ParseFreeCSV, one row: keep the `name=value` fields, drop the
rest.  (The `encoding/csv` layer transports each field string verbatim —
fields containing commas, quotes or newlines are quoted on write and
unquoted on read — so it is the identity on the field lists modelled
here.) -/
def parseFreeCSVRow (fields : List String) : RawRow := fields.filterMap splitEq

/-- The canonical column order of the state file
(`fields` in jobstate.WriteJobState). -/
def stateFieldOrder : List String :=
  ["id", "host", "startedOnOrBefore", "firstViolation", "lastSeen", "isReported"]

/-- jobstate.WriteJobState, one row: the record map holds exactly the six
canonical fields, so storage.WriteFreeCSV emits all six, in the canonical
order. -/
def serializeJobState (r : JobState) : List String :=
  ["id=" ++ formatNat r.id,
   "host=" ++ r.host,
   "startedOnOrBefore=" ++ formatRFC3339 r.startedOnOrBefore,
   "firstViolation=" ++ formatRFC3339 r.firstViolation,
   "lastSeen=" ++ formatRFC3339 r.lastSeen,
   "isReported=" ++ formatBool r.isReported]

/-- jobstate.WriteJobState over a whole state map, in iteration order. -/
def writeJobState (m : StateMap) : List (List String) :=
  m.map (fun kv => serializeJobState kv.2)

/-- One row of jobstate.ReadJobState: all six accessors must succeed, and
the map key is rebuilt from the row's own id and host fields. -/
def readStateRow (row : RawRow) : Option (JobKey × JobState) :=
  (getUint32 row "id").bind fun i =>
  (getString row "host").bind fun host =>
  (getRFC3339 row "startedOnOrBefore").bind fun sb =>
  (getRFC3339 row "firstViolation").bind fun fv =>
  (getRFC3339 row "lastSeen").bind fun ls =>
  (getBool row "isReported").map fun ir =>
  (JobKey.mk i host, JobState.mk i host sb fv ls ir)

/-- Go map assignment `state[key] = v`: replace an existing binding, else
add a new one (modelled at the end of the iteration order). -/
def insertRow (m : StateMap) (k : JobKey) (v : JobState) : StateMap :=
  if m.any (fun p => p.1 == k) then
    m.map (fun p => if p.1 == k then (k, v) else p)
  else m ++ [(k, v)]

/-- One iteration of jobstate.ReadJobState's row loop: parse the row, skip
it silently when bogus, otherwise store it under its rebuilt key. -/
def readStateStep (acc : StateMap) (fields : List String) : StateMap :=
  match readStateRow (parseFreeCSVRow fields) with
  | none => acc
  | some (k, v) => insertRow acc k v

/-- jobstate.ReadJobState: parse every row, silently dropping bogus ones,
and build the state map. -/
def readJobState (rows : List (List String)) : StateMap :=
  rows.foldl readStateStep []

theorem splitEqChars_append (n v : List Char) (h : '=' ∉ n) :
    splitEqChars (n ++ '=' :: v) = some (n, v) := by
  induction n with
  | nil => simp [splitEqChars]
  | cons c rest ih =>
    have hc : ¬(c = '=') := fun hc => h (hc ▸ List.mem_cons_self c rest)
    have hrest : '=' ∉ rest := fun hm => h (List.mem_cons_of_mem c hm)
    simp only [List.cons_append, splitEqChars, if_neg hc]
    rw [show List.append rest ('=' :: v) = rest ++ '=' :: v from rfl, ih hrest]
    rfl

theorem splitEq_field (name v : String) (h : '=' ∉ name.data) :
    splitEq (name ++ "=" ++ v) = some (name, v) := by
  have hdata : (name ++ "=" ++ v).data = name.data ++ '=' :: v.data := by
    simp [String.data_append]
  simp only [splitEq, hdata, splitEqChars_append name.data v.data h]
  rfl

/-- Shape of a parsed serialized state row. -/
theorem parseFreeCSVRow_serialize (r : JobState) :
    parseFreeCSVRow (serializeJobState r) =
      [("id", formatNat r.id),
       ("host", r.host),
       ("startedOnOrBefore", formatRFC3339 r.startedOnOrBefore),
       ("firstViolation", formatRFC3339 r.firstViolation),
       ("lastSeen", formatRFC3339 r.lastSeen),
       ("isReported", formatBool r.isReported)] := by
  have e1 : ("id=" : String) ++ formatNat r.id = "id" ++ "=" ++ formatNat r.id := by
    rw [show ("id=" : String) = "id" ++ "=" from by decide]
  have e2 : ("host=" : String) ++ r.host = "host" ++ "=" ++ r.host := by
    rw [show ("host=" : String) = "host" ++ "=" from by decide]
  have e3 : ("startedOnOrBefore=" : String) ++ formatRFC3339 r.startedOnOrBefore =
      "startedOnOrBefore" ++ "=" ++ formatRFC3339 r.startedOnOrBefore := by
    rw [show ("startedOnOrBefore=" : String) = "startedOnOrBefore" ++ "=" from by decide]
  have e4 : ("firstViolation=" : String) ++ formatRFC3339 r.firstViolation =
      "firstViolation" ++ "=" ++ formatRFC3339 r.firstViolation := by
    rw [show ("firstViolation=" : String) = "firstViolation" ++ "=" from by decide]
  have e5 : ("lastSeen=" : String) ++ formatRFC3339 r.lastSeen =
      "lastSeen" ++ "=" ++ formatRFC3339 r.lastSeen := by
    rw [show ("lastSeen=" : String) = "lastSeen" ++ "=" from by decide]
  have e6 : ("isReported=" : String) ++ formatBool r.isReported =
      "isReported" ++ "=" ++ formatBool r.isReported := by
    rw [show ("isReported=" : String) = "isReported" ++ "=" from by decide]
  simp only [parseFreeCSVRow, serializeJobState, List.filterMap_cons, List.filterMap_nil,
    e1, e2, e3, e4, e5, e6,
    splitEq_field "id" _ (by decide), splitEq_field "host" _ (by decide),
    splitEq_field "startedOnOrBefore" _ (by decide),
    splitEq_field "firstViolation" _ (by decide),
    splitEq_field "lastSeen" _ (by decide),
    splitEq_field "isReported" _ (by decide)]

/-- Evaluating the six typed accessors on a row of the canonical shape. -/
theorem readStateRow_shape (a b c d e f : String) :
    readStateRow
      [("id", a), ("host", b), ("startedOnOrBefore", c),
       ("firstViolation", d), ("lastSeen", e), ("isReported", f)] =
    (parseUint32 a).bind fun i =>
    (parseRFC3339 c).bind fun sb =>
    (parseRFC3339 d).bind fun fv =>
    (parseRFC3339 e).bind fun ls =>
    (parseBool f).map fun ir =>
    (JobKey.mk i b, JobState.mk i b sb fv ls ir) := rfl

theorem parseUint32_formatNat (n : Nat) (h : n < 4294967296) :
    parseUint32 (formatNat n) = some n := by
  simp only [parseUint32, parseNat_formatNat, Option.some_bind, if_pos h]

theorem parseBool_formatBool (b : Bool) : parseBool (formatBool b) = some b := by
  cases b <;> rfl

/-- A state-row timestamp the serialization handles exactly: whole seconds,
1970-01-01 through the end of year 9999. -/
def ValidTime (t : Int) : Prop := 0 ≤ t ∧ t < 253402300800

/-- A valid persistent state map: no duplicate keys, every row keyed by its
own (id, host), 32-bit job ids, representable timestamps. -/
def ValidState (m : StateMap) : Prop :=
  (m.map Prod.fst).Nodup ∧
  ∀ p ∈ m, p.1 = JobKey.mk p.2.id p.2.host ∧ p.2.id < 4294967296 ∧
    ValidTime p.2.startedOnOrBefore ∧ ValidTime p.2.firstViolation ∧
    ValidTime p.2.lastSeen

instance : DecidablePred ValidTime := fun _ => by
  unfold ValidTime; infer_instance

theorem readStateRow_serialize (r : JobState) (hid : r.id < 4294967296)
    (h1 : ValidTime r.startedOnOrBefore) (h2 : ValidTime r.firstViolation)
    (h3 : ValidTime r.lastSeen) :
    readStateRow (parseFreeCSVRow (serializeJobState r)) =
      some (JobKey.mk r.id r.host, r) := by
  rw [parseFreeCSVRow_serialize, readStateRow_shape]
  rw [parseUint32_formatNat r.id hid,
    parseRFC3339_formatRFC3339 _ h1.1 h1.2,
    parseRFC3339_formatRFC3339 _ h2.1 h2.2,
    parseRFC3339_formatRFC3339 _ h3.1 h3.2,
    parseBool_formatBool]
  rfl

/-- Whether a Go map (as an association list) holds a binding for a key. -/
def hasKey (m : StateMap) (k : JobKey) : Bool := m.any (fun p => p.1 == k)

theorem insertRow_fresh (m : StateMap) (k : JobKey) (v : JobState)
    (h : hasKey m k = false) : insertRow m k v = m ++ [(k, v)] := by
  simp only [insertRow, hasKey] at *
  rw [if_neg]
  simp [h]

theorem readStateStep_serialize (acc : StateMap) (r : JobState)
    (hid : r.id < 4294967296) (h1 : ValidTime r.startedOnOrBefore)
    (h2 : ValidTime r.firstViolation) (h3 : ValidTime r.lastSeen) :
    readStateStep acc (serializeJobState r) =
      insertRow acc (JobKey.mk r.id r.host) r := by
  simp only [readStateStep, readStateRow_serialize r hid h1 h2 h3]

theorem readJobState_foldl (m : StateMap) (acc : StateMap)
    (hrows : ∀ p ∈ m, p.1 = JobKey.mk p.2.id p.2.host ∧ p.2.id < 4294967296 ∧
      ValidTime p.2.startedOnOrBefore ∧ ValidTime p.2.firstViolation ∧
      ValidTime p.2.lastSeen)
    (hnodup : (m.map Prod.fst).Nodup)
    (hdisj : ∀ p ∈ m, hasKey acc p.1 = false) :
    (writeJobState m).foldl readStateStep acc = acc ++ m := by
  induction m generalizing acc with
  | nil => simp [writeJobState]
  | cons p tail ih =>
    obtain ⟨k, r⟩ := p
    obtain ⟨hk, hid, h1, h2, h3⟩ := hrows (k, r) (List.mem_cons_self _ _)
    dsimp only at hk hid h1 h2 h3
    rw [List.map_cons] at hnodup
    have hnd := List.nodup_cons.mp hnodup
    dsimp only at hnd
    simp only [writeJobState, List.map_cons, List.foldl_cons]
    rw [readStateStep_serialize acc r hid h1 h2 h3]
    have hkey : hasKey acc (JobKey.mk r.id r.host) = false := by
      have hx := hdisj (k, r) (List.mem_cons_self _ _)
      dsimp only at hx
      rw [hk] at hx
      exact hx
    rw [insertRow_fresh acc _ r hkey, ← hk]
    have htail := ih (acc ++ [(k, r)])
      (fun q hq => hrows q (List.mem_cons_of_mem _ hq))
      hnd.2
      (fun q hq => by
        have hq1 : hasKey acc q.1 = false := hdisj q (List.mem_cons_of_mem _ hq)
        have hne : (k == q.1) = false := by
          have hne0 : k ≠ q.1 := fun hkq => hnd.1 (hkq ▸ List.mem_map_of_mem Prod.fst hq)
          simpa using hne0
        simp only [hasKey, List.any_append, List.any_cons, List.any_nil] at hq1 ⊢
        simp [hq1, hne])
    simp only [writeJobState] at htail
    rw [htail]
    simp [List.append_assoc]

/-- C5: writing a map of valid job-state rows and reading the file back
yields the same map, all six fields preserved; and each on-disk row carries
the six fields in the canonical column order id, host, startedOnOrBefore,
firstViolation, lastSeen, isReported. -/
theorem c5_state_roundtrip (m : StateMap) (h : ValidState m) :
    readJobState (writeJobState m) = m ∧
    ∀ row ∈ writeJobState m, (parseFreeCSVRow row).map Prod.fst = stateFieldOrder := by
  constructor
  · have := readJobState_foldl m [] h.2 h.1 (fun p _ => rfl)
    simpa [readJobState] using this
  · intro row hrow
    simp only [writeJobState, List.mem_map] at hrow
    obtain ⟨p, _, rfl⟩ := hrow
    rw [parseFreeCSVRow_serialize p.2]
    rfl

/-- Concrete instance discharging c5_state_roundtrip's hypothesis: the row
the jobstate unit test uses (id 10 on host "hello"). -/
def stateExample : StateMap :=
  [(JobKey.mk 10 "hello",
    JobState.mk 10 "hello" 1686758400 1686824430 1694446620 false)]

theorem c5_state_roundtrip_witness :
    ValidState stateExample ∧
    readJobState (writeJobState stateExample) = stateExample := by
  have hv : ValidState stateExample := by
    constructor
    · decide
    · intro p hp
      simp only [stateExample, List.mem_singleton] at hp
      subst hp
      refine ⟨rfl, by norm_num, ?_, ?_, ?_⟩ <;> exact ⟨by norm_num, by norm_num⟩
  exact ⟨hv, (c5_state_roundtrip stateExample hv).1⟩

/-- mlcpuhog.cpuhogState: the in-memory fold of all surviving cpuhog log
records that share one job key (the aggregated job).  The source also
carries a `duration` field that is set to zero and never updated (marked
FIXME there); it is omitted.  `end` is a reserved word in Lean, hence
`endT`. -/
structure CpuhogJob where
  id : Nat
  host : String
  user : String
  cmd : String
  firstSeen : Int
  lastSeen : Int
  start : Int
  endT : Int
  cpuPeak : ℚ
  gpuPeak : ℚ
  rcpuAvg : ℚ
  rcpuPeak : ℚ
  rmemAvg : ℚ
  rmemPeak : ℚ
deriving DecidableEq

/-- One cpuhog event-log row after the typed accessors succeeded. -/
structure CpuhogRecord where
  now : Int
  id : Nat
  user : String
  host : String
  cmd : String
  cpuPeak : ℚ
  gpuPeak : ℚ
  rcpuAvg : ℚ
  rcpuPeak : ℚ
  rmemAvg : ℚ
  rmemPeak : ℚ
  start : Int
  endT : Int
deriving DecidableEq

/-- The row-parsing block of mlcpuhog.readLogFiles: every accessor feeds the
shared success flag, the tag must equal "cpuhog", and a failed row is
dropped (`continue`). -/
def parseCpuhogRow (r : RawRow) : Option CpuhogRecord :=
  (getString r "tag").bind fun tag =>
  if tag = "cpuhog" then
    (getDateTime r "now").bind fun now =>
    (getJobMark r "jobm").bind fun i =>
    (getString r "user").bind fun user =>
    (getString r "host").bind fun host =>
    (getString r "cmd").bind fun cmd =>
    (getFloat64 r "cpu-peak").bind fun cpuPeak =>
    (getFloat64 r "gpu-peak").bind fun gpuPeak =>
    (getFloat64 r "rcpu-avg").bind fun rcpuAvg =>
    (getFloat64 r "rcpu-peak").bind fun rcpuPeak =>
    (getFloat64 r "rmem-avg").bind fun rmemAvg =>
    (getFloat64 r "rmem-peak").bind fun rmemPeak =>
    (getDateTime r "start").bind fun start =>
    (getDateTime r "end").map fun endT =>
    CpuhogRecord.mk now i user host cmd cpuPeak gpuPeak rcpuAvg rcpuPeak
      rmemAvg rmemPeak start endT
  else none

/-- The aggregated-job map built by readLogFiles. -/
abbrev JobMap := List (JobKey × CpuhogJob)

/-- Go map lookup `logs[key]`. -/
def lookupJob (jobs : JobMap) (k : JobKey) : Option CpuhogJob :=
  (jobs.find? (fun p => p.1 == k)).map Prod.snd

/-- First occurrence of a key: copy identity, times and numerics directly
(`firstSeen := now; lastSeen := now`). -/
def initJob (rec : CpuhogRecord) : CpuhogJob :=
  CpuhogJob.mk rec.id rec.host rec.user rec.cmd rec.now rec.now rec.start rec.endT
    rec.cpuPeak rec.gpuPeak rec.rcpuAvg rec.rcpuPeak rec.rmemAvg rec.rmemPeak

/-- Subsequent occurrence: min/max the windows, max the numerics; id, user,
host, cmd are not revisited.  `math.Max` on the (never-NaN) percentage
fields is the order maximum. -/
def updateJob (j : CpuhogJob) (rec : CpuhogRecord) : CpuhogJob :=
  { j with
    firstSeen := minTime j.firstSeen rec.now
    lastSeen := maxTime j.lastSeen rec.now
    start := minTime j.start rec.start
    endT := maxTime j.endT rec.endT
    cpuPeak := max j.cpuPeak rec.cpuPeak
    gpuPeak := max j.gpuPeak rec.gpuPeak
    rcpuAvg := max j.rcpuAvg rec.rcpuAvg
    rcpuPeak := max j.rcpuPeak rec.rcpuPeak
    rmemAvg := max j.rmemAvg rec.rmemAvg
    rmemPeak := max j.rmemPeak rec.rmemPeak }

/-- Folding one surviving record into the aggregated-job map
(`jobs[key]` update or insert in readLogFiles). -/
def ingestRecord (jobs : JobMap) (rec : CpuhogRecord) : JobMap :=
  let key := JobKey.mk rec.id rec.host
  match lookupJob jobs key with
  | some _ => jobs.map (fun p => if p.1 == key then (p.1, updateJob p.2 rec) else p)
  | none => jobs ++ [(key, initJob rec)]

/-- mlcpuhog.readLogFiles on the concatenated record stream of the
enumerated files (rows in file order, day ascending): parse each row,
silently dropping failures, and fold the survivors by job key. -/
def readLogRows (rows : List RawRow) : JobMap :=
  (rows.filterMap parseCpuhogRow).foldl ingestRecord []

/-- The per-event report record of mlcpuhog (JSON field names are the
kebab-case strings in the struct tags). -/
structure PerEvent where
  host : String
  id : Nat
  user : String
  cmd : String
  startedOnOrBefore : String
  firstViolation : String
  cpuPeak : Nat
  rcpuAvg : Nat
  rcpuPeak : Nat
  rmemAvg : Nat
  rmemPeak : Nat
deriving DecidableEq

/-- Go `uint32(f)` for a non-negative float64: truncation toward zero
(conversion of a negative or huge value is unspecified in Go and does not
occur for these percentage fields). -/
def u32OfRat (q : ℚ) : Nat := q.floor.toNat

/-- The `job.cpuPeak / 100` of createCpuhogReport, written as a single
fraction; `divQ100_eq` below checks that it is division by 100. -/
def divQ100 (q : ℚ) : ℚ := mkRat q.num (q.den * 100)

theorem divQ100_eq (q : ℚ) : divQ100 q = q / 100 := by
  rw [divQ100, Rat.mkRat_eq_div]
  push_cast
  rw [div_mul_eq_div_div, Rat.num_div_den]

/-- The perEvent built for one announced state row in createCpuhogReport. -/
def mkEvent (st : JobState) (job : CpuhogJob) : PerEvent :=
  PerEvent.mk st.host st.id job.user job.cmd
    (formatDateTime st.startedOnOrBefore) (formatDateTime st.firstViolation)
    (u32OfRat (divQ100 job.cpuPeak)) (u32OfRat job.rcpuAvg) (u32OfRat job.rcpuPeak)
    (u32OfRat job.rmemAvg) (u32OfRat job.rmemPeak)

/-- mlcpuhog.createCpuhogReport: walk the state in iteration order; for each
row with isReported = false, set the flag and emit an event built from the
row plus the lookup `job, _ := logs[k]`.  The map holds pointers, so a
missing key yields a nil pointer and the subsequent `job.user` dereference
panics: that run-time panic is modelled as `none`. -/
def createCpuhogReport (hogState : StateMap) (logs : JobMap) :
    Option (StateMap × List PerEvent) :=
  match hogState with
  | [] => some ([], [])
  | (k, st) :: rest =>
    if st.isReported then
      (createCpuhogReport rest logs).map (fun pr => ((k, st) :: pr.1, pr.2))
    else
      match lookupJob logs k with
      | none => none
      | some job =>
        (createCpuhogReport rest logs).map (fun pr =>
          ((k, { st with isReported := true }) :: pr.1, mkEvent st job :: pr.2))

/-- util.JobReport. -/
structure JobReport where
  id : Nat
  host : String
  report : String
deriving DecidableEq

/-- Lexicographic comparison of character sequences by code point.  Go's
`<` on strings compares UTF-8 byte sequences lexicographically, which
orders strings exactly by code points (UTF-8 byte order agrees with code
point order). -/
def charListLt : List Char → List Char → Bool
  | _, [] => false
  | [], _ :: _ => true
  | a :: as, b :: bs =>
    if a < b then true
    else if b < a then false
    else charListLt as bs

/-- Go `a < b` on strings. -/
def stringLtB (a b : String) : Bool := charListLt a.data b.data

/-- byJobKey.Less from util: host lexicographically, then job id. -/
def reportLess (a b : JobReport) : Bool :=
  if a.host ≠ b.host then stringLtB a.host b.host else decide (a.id < b.id)

/-- Insertion step for the modelled sort. -/
def insertSorted (x : JobReport) : List JobReport → List JobReport
  | [] => [x]
  | y :: ys => if reportLess y x then y :: insertSorted x ys else x :: y :: ys

/-- util.SortReports uses Go's sort.Sort with byJobKey.Less, an in-place
comparison sort; it is modelled as insertion sort over the same ordering.
(sort.Sort is unstable, but every sorted permutation is equal except on
elements whose (host, id) keys coincide, and only order-theoretic facts are
proved below.) -/
def sortReports (l : List JobReport) : List JobReport := l.foldr insertSorted []

/-- The Sprintf template of writeCpuhogReport. -/
def renderCpuhogEvent (e : PerEvent) : String :=
  "New CPU hog detected (uses a lot of CPU and no GPU) on host \"" ++ e.host ++
  "\":\n  Job#: " ++ formatNat e.id ++
  "\n  User: " ++ e.user ++
  "\n  Command: " ++ e.cmd ++
  "\n  Started on or before: " ++ e.startedOnOrBefore ++
  "\n  Violation first detected: " ++ e.firstViolation ++
  "\n  Observed data:\n    CPU peak = " ++ formatNat e.cpuPeak ++
  " cores\n    CPU utilization avg/peak = " ++ formatNat e.rcpuAvg ++
  "%, " ++ formatNat e.rcpuPeak ++
  "%\n    Memory utilization avg/peak = " ++ formatNat e.rmemAvg ++
  "%, " ++ formatNat e.rmemPeak ++ "%\n\n"

/-- mlcpuhog.writeCpuhogReport: build one JobReport per event (in event
order), sort by (host, id), and print in that order; the value is the
printed sequence. -/
def writeCpuhogReport (events : List PerEvent) : List JobReport :=
  sortReports (events.map (fun e => JobReport.mk e.id e.host (renderCpuhogEvent e)))

/-- The `--json` path of MlCpuhog: `json.Marshal(events)` serializes the
slice in slice order; the JSON array is modelled as the event list
itself. -/
def jsonMarshalEvents (events : List PerEvent) : List PerEvent := events

theorem minTime_eq_min (a b : Int) : minTime a b = min a b := by
  simp only [minTime, min_def]
  split_ifs <;> omega

theorem maxTime_eq_max (a b : Int) : maxTime a b = max a b := by
  simp only [maxTime, max_def]
  split_ifs <;> omega

/-- `v` is the minimum of the (nonempty) list `l`. -/
def isMinOf {α : Type} [LinearOrder α] (v : α) (l : List α) : Prop :=
  v ∈ l ∧ ∀ x ∈ l, v ≤ x

/-- `v` is the maximum of the (nonempty) list `l`. -/
def isMaxOf {α : Type} [LinearOrder α] (v : α) (l : List α) : Prop :=
  v ∈ l ∧ ∀ x ∈ l, x ≤ v

theorem isMinOf_min_cons {α : Type} [LinearOrder α] {v a b : α} {l : List α}
    (h : isMinOf v (min a b :: l)) : isMinOf v (a :: b :: l) := by
  obtain ⟨hmem, hlb⟩ := h
  constructor
  · rcases List.mem_cons.mp hmem with hv | hv
    · rcases min_choice a b with hab | hab
      · exact hab ▸ hv ▸ List.mem_cons_self _ _
      · exact List.mem_cons_of_mem _ (hab ▸ hv ▸ List.mem_cons_self _ _)
    · exact List.mem_cons_of_mem _ (List.mem_cons_of_mem _ hv)
  · intro x hx
    have hmin : v ≤ min a b := hlb _ (List.mem_cons_self _ _)
    rcases List.mem_cons.mp hx with rfl | hx
    · exact le_trans hmin (min_le_left _ _)
    rcases List.mem_cons.mp hx with rfl | hx
    · exact le_trans hmin (min_le_right _ _)
    · exact hlb x (List.mem_cons_of_mem _ hx)

theorem isMaxOf_max_cons {α : Type} [LinearOrder α] {v a b : α} {l : List α}
    (h : isMaxOf v (max a b :: l)) : isMaxOf v (a :: b :: l) := by
  obtain ⟨hmem, hub⟩ := h
  constructor
  · rcases List.mem_cons.mp hmem with hv | hv
    · rcases max_choice a b with hab | hab
      · exact hab ▸ hv ▸ List.mem_cons_self _ _
      · exact List.mem_cons_of_mem _ (hab ▸ hv ▸ List.mem_cons_self _ _)
    · exact List.mem_cons_of_mem _ (List.mem_cons_of_mem _ hv)
  · intro x hx
    have hmax : max a b ≤ v := hub _ (List.mem_cons_self _ _)
    rcases List.mem_cons.mp hx with rfl | hx
    · exact le_trans (le_max_left _ _) hmax
    rcases List.mem_cons.mp hx with rfl | hx
    · exact le_trans (le_max_right _ _) hmax
    · exact hub x (List.mem_cons_of_mem _ hx)

/-- The per-key view of one `ingestRecord` step. -/
def stepK (o : Option CpuhogJob) (rec : CpuhogRecord) : Option CpuhogJob :=
  match o with
  | none => some (initJob rec)
  | some j => some (updateJob j rec)

theorem lookupJob_mapUpdate (jobs : JobMap) (key : JobKey) (rec : CpuhogRecord)
    (k : JobKey) :
    lookupJob (jobs.map (fun p => if p.1 == key then (p.1, updateJob p.2 rec) else p)) k =
      if key == k then (lookupJob jobs k).map (fun j => updateJob j rec)
      else lookupJob jobs k := by
  induction jobs with
  | nil => simp [lookupJob]
  | cons p t ih =>
    simp only [List.map_cons]
    by_cases hpk : p.1 = key
    · rw [if_pos (show (p.1 == key) = true by simpa using hpk)]
      by_cases hk : p.1 = k
      · have hkk : (key == k) = true := by simpa using hpk.symm.trans hk
        rw [if_pos hkk]
        simp only [lookupJob]
        rw [@List.find?_cons_of_pos _ (fun q => q.1 == k) (p.1, updateJob p.2 rec) _
            (by simpa using hk),
          @List.find?_cons_of_pos _ (fun q => q.1 == k) p _ (by simpa using hk)]
        simp
      · have hkk : (key == k) = false := by
          simpa using fun h => hk (hpk.trans h)
        rw [if_neg (by simp [hkk])]
        simp only [lookupJob]
        rw [@List.find?_cons_of_neg _ (fun q => q.1 == k) (p.1, updateJob p.2 rec) _
            (by simpa using hk),
          @List.find?_cons_of_neg _ (fun q => q.1 == k) p _ (by simpa using hk)]
        have ih2 : lookupJob
            (t.map (fun p => if p.1 == key then (p.1, updateJob p.2 rec) else p)) k =
            lookupJob t k := by simpa [hkk] using ih
        simpa [lookupJob] using ih2
    · rw [if_neg (show ¬(p.1 == key) = true by simpa using hpk)]
      by_cases hk : p.1 = k
      · have hkk : (key == k) = false := by
          simpa using fun h => hpk (hk.trans h.symm)
        rw [if_neg (by simp [hkk])]
        simp only [lookupJob]
        rw [@List.find?_cons_of_pos _ (fun q => q.1 == k) p _ (by simpa using hk),
          @List.find?_cons_of_pos _ (fun q => q.1 == k) p _ (by simpa using hk)]
      · simp only [lookupJob]
        rw [@List.find?_cons_of_neg _ (fun q => q.1 == k) p _ (by simpa using hk),
          @List.find?_cons_of_neg _ (fun q => q.1 == k) p _ (by simpa using hk)]
        exact ih

theorem lookupJob_append_single (jobs : JobMap) (x : JobKey × CpuhogJob) (k : JobKey) :
    lookupJob (jobs ++ [x]) k =
      match lookupJob jobs k with
      | some j => some j
      | none => if x.1 == k then some x.2 else none := by
  induction jobs with
  | nil =>
    by_cases hx : x.1 = k
    · simp only [List.nil_append, lookupJob, List.find?_nil]
      rw [@List.find?_cons_of_pos _ (fun q => q.1 == k) x _ (by simpa using hx)]
      simp [show (x.1 == k) = true by simpa using hx]
    · simp only [List.nil_append, lookupJob, List.find?_nil]
      rw [@List.find?_cons_of_neg _ (fun q => q.1 == k) x _ (by simpa using hx)]
      simp [show (x.1 == k) = false by simpa using hx]
  | cons p t ih =>
    by_cases hp : p.1 = k
    · simp only [List.cons_append, lookupJob]
      rw [@List.find?_cons_of_pos _ (fun q => q.1 == k) p _ (by simpa using hp),
        @List.find?_cons_of_pos _ (fun q => q.1 == k) p _ (by simpa using hp)]
      simp
    · simp only [List.cons_append, lookupJob] at ih ⊢
      rw [@List.find?_cons_of_neg _ (fun q => q.1 == k) p _ (by simpa using hp),
        @List.find?_cons_of_neg _ (fun q => q.1 == k) p _ (by simpa using hp)]
      exact ih

theorem lookupJob_ingest (jobs : JobMap) (rec : CpuhogRecord) (k : JobKey) :
    lookupJob (ingestRecord jobs rec) k =
      if JobKey.mk rec.id rec.host == k then stepK (lookupJob jobs k) rec
      else lookupJob jobs k := by
  simp only [ingestRecord]
  cases hlk : lookupJob jobs (JobKey.mk rec.id rec.host) with
  | some j =>
    rw [lookupJob_mapUpdate]
    by_cases hk : JobKey.mk rec.id rec.host = k
    · subst hk
      simp [hlk, stepK]
    · simp [hk]
  | none =>
    rw [lookupJob_append_single]
    by_cases hk : JobKey.mk rec.id rec.host = k
    · subst hk
      simp [hlk, stepK]
    · have hne : (JobKey.mk rec.id rec.host == k) = false := by simpa using hk
      rw [if_neg (by simpa using hk)]
      cases hrest : lookupJob jobs k <;> simp [hne, hrest]

theorem lookupJob_foldl (recs : List CpuhogRecord) (jobs : JobMap) (k : JobKey) :
    lookupJob (recs.foldl ingestRecord jobs) k =
      (recs.filter (fun rec => JobKey.mk rec.id rec.host == k)).foldl stepK
        (lookupJob jobs k) := by
  induction recs generalizing jobs with
  | nil => rfl
  | cons rec rest ih =>
    simp only [List.foldl_cons, List.filter_cons]
    by_cases hkey : (JobKey.mk rec.id rec.host) = k
    · have hb : (JobKey.mk rec.id rec.host == k) = true := by simpa using hkey
      rw [if_pos hb]
      simp only [List.foldl_cons]
      rw [ih, lookupJob_ingest, if_pos hb]
    · have hb : (JobKey.mk rec.id rec.host == k) = false := by simpa using hkey
      rw [if_neg (by simp [hb])]
      rw [ih, lookupJob_ingest, if_neg (by simp [hb])]

theorem stepK_foldl_spec (recs : List CpuhogRecord) (j : CpuhogJob) :
    ∃ j2, recs.foldl stepK (some j) = some j2 ∧
      j2.id = j.id ∧ j2.host = j.host ∧ j2.user = j.user ∧ j2.cmd = j.cmd ∧
      isMinOf j2.firstSeen (j.firstSeen :: recs.map CpuhogRecord.now) ∧
      isMaxOf j2.lastSeen (j.lastSeen :: recs.map CpuhogRecord.now) ∧
      isMinOf j2.start (j.start :: recs.map CpuhogRecord.start) ∧
      isMaxOf j2.endT (j.endT :: recs.map CpuhogRecord.endT) ∧
      isMaxOf j2.cpuPeak (j.cpuPeak :: recs.map CpuhogRecord.cpuPeak) ∧
      isMaxOf j2.gpuPeak (j.gpuPeak :: recs.map CpuhogRecord.gpuPeak) ∧
      isMaxOf j2.rcpuAvg (j.rcpuAvg :: recs.map CpuhogRecord.rcpuAvg) ∧
      isMaxOf j2.rcpuPeak (j.rcpuPeak :: recs.map CpuhogRecord.rcpuPeak) ∧
      isMaxOf j2.rmemAvg (j.rmemAvg :: recs.map CpuhogRecord.rmemAvg) ∧
      isMaxOf j2.rmemPeak (j.rmemPeak :: recs.map CpuhogRecord.rmemPeak) := by
  induction recs generalizing j with
  | nil =>
    exact ⟨j, rfl, rfl, rfl, rfl, rfl, by simp [isMinOf], by simp [isMaxOf],
      by simp [isMinOf], by simp [isMaxOf], by simp [isMaxOf], by simp [isMaxOf],
      by simp [isMaxOf], by simp [isMaxOf], by simp [isMaxOf], by simp [isMaxOf]⟩
  | cons rec rest ih =>
    obtain ⟨j2, heq, hid, hhost, huser, hcmd, h1, h2, h3, h4, h5, h6, h7, h8, h9, h10⟩ :=
      ih (updateJob j rec)
    refine ⟨j2, by simpa [stepK] using heq, hid, hhost, huser, hcmd,
      ?_, ?_, ?_, ?_, ?_, ?_, ?_, ?_, ?_, ?_⟩ <;>
      simp only [List.map_cons] <;>
      [skip; skip; skip; skip; skip; skip; skip; skip; skip; skip]
    · exact isMinOf_min_cons (by
        simpa [updateJob, minTime_eq_min] using h1)
    · exact isMaxOf_max_cons (by
        simpa [updateJob, maxTime_eq_max] using h2)
    · exact isMinOf_min_cons (by
        simpa [updateJob, minTime_eq_min] using h3)
    · exact isMaxOf_max_cons (by
        simpa [updateJob, maxTime_eq_max] using h4)
    · exact isMaxOf_max_cons (by simpa [updateJob] using h5)
    · exact isMaxOf_max_cons (by simpa [updateJob] using h6)
    · exact isMaxOf_max_cons (by simpa [updateJob] using h7)
    · exact isMaxOf_max_cons (by simpa [updateJob] using h8)
    · exact isMaxOf_max_cons (by simpa [updateJob] using h9)
    · exact isMaxOf_max_cons (by simpa [updateJob] using h10)

theorem charListLt_asymm : ∀ as bs : List Char,
    charListLt as bs = true → charListLt bs as = false
  | as, [] => by intro h; cases as <;> simp [charListLt] at h
  | [], _ :: _ => by intro _; rfl
  | a :: as, b :: bs => by
    intro h
    simp only [charListLt] at h ⊢
    rcases lt_trichotomy a b with hab | hab | hab
    · rw [if_neg (lt_asymm hab), if_pos hab]
    · subst hab
      rw [if_neg (lt_irrefl a), if_neg (lt_irrefl a)] at h ⊢
      exact charListLt_asymm as bs h
    · rw [if_neg (lt_asymm hab), if_pos hab] at h
      simp at h

theorem charListLt_antisymm : ∀ as bs : List Char,
    charListLt as bs = false → charListLt bs as = false → as = bs
  | [], [] => by intro _ _; rfl
  | [], _ :: _ => by intro h _; simp [charListLt] at h
  | _ :: _, [] => by intro _ h; simp [charListLt] at h
  | a :: as, b :: bs => by
    intro h1 h2
    simp only [charListLt] at h1 h2
    rcases lt_trichotomy a b with hab | hab | hab
    · rw [if_pos hab] at h1; simp at h1
    · subst hab
      rw [if_neg (lt_irrefl a), if_neg (lt_irrefl a)] at h1 h2
      rw [charListLt_antisymm as bs h1 h2]
    · rw [if_pos hab] at h2; simp at h2

theorem charListLt_false_trans : ∀ x y z : List Char,
    charListLt y x = false → charListLt z y = false → charListLt z x = false
  | [], _, z => by
    intro _ _
    cases z <;> rfl
  | _ :: _, [], _ => by
    intro h1 _
    simp [charListLt] at h1
  | _ :: _, _ :: _, [] => by
    intro _ h2
    simp [charListLt] at h2
  | x :: xs, y :: ys, z :: zs => by
    intro h1 h2
    simp only [charListLt] at h1 h2 ⊢
    by_cases hyx : y < x
    · rw [if_pos hyx] at h1; simp at h1
    · by_cases hzy : z < y
      · rw [if_pos hzy] at h2; simp at h2
      · rw [if_neg hyx] at h1
        rw [if_neg hzy] at h2
        have hxy : x ≤ y := not_lt.mp hyx
        have hyz : y ≤ z := not_lt.mp hzy
        have hzx : ¬ z < x := not_lt.mpr (le_trans hxy hyz)
        rw [if_neg hzx]
        by_cases hxz : x < z
        · rw [if_pos hxz]
        · rw [if_neg hxz]
          have hxz2 : x = z := le_antisymm (le_trans hxy hyz) (not_lt.mp hxz)
          have hyx2 : y ≤ x := by rw [hxz2]; exact hyz
          have hxy2 : x = y := le_antisymm hxy hyx2
          have hyz2 : y = z := by rw [← hxy2]; exact hxz2
          rw [if_neg (by rw [hxy2]; exact lt_irrefl y)] at h1
          rw [if_neg (by rw [hyz2]; exact lt_irrefl z)] at h2
          exact charListLt_false_trans xs ys zs h1 h2

theorem string_data_eq {a b : String} (h : a.data = b.data) : a = b := by
  cases a; cases b; exact congrArg String.mk h

theorem stringLtB_asymm (a b : String) (h : stringLtB a b = true) :
    stringLtB b a = false := by
  simp only [stringLtB] at h ⊢
  exact charListLt_asymm _ _ h

theorem stringLtB_antisymm (a b : String) (h1 : stringLtB a b = false)
    (h2 : stringLtB b a = false) : a = b := by
  simp only [stringLtB] at h1 h2
  exact string_data_eq (charListLt_antisymm _ _ h1 h2)

theorem stringLtB_false_trans (x y z : String) (h1 : stringLtB y x = false)
    (h2 : stringLtB z y = false) : stringLtB z x = false := by
  simp only [stringLtB] at h1 h2 ⊢
  exact charListLt_false_trans _ _ _ h1 h2

theorem reportLess_asymm (a b : JobReport) (h : reportLess a b = true) :
    reportLess b a = false := by
  simp only [reportLess] at h ⊢
  by_cases hab : a.host = b.host
  · rw [if_neg (by simp [hab])] at h
    rw [if_neg (by simp [hab.symm])]
    simp only [decide_eq_true_eq] at h
    simp only [decide_eq_false_iff_not, not_lt]
    omega
  · rw [if_pos (by simp [hab])] at h
    rw [if_pos (by simp [Ne.symm hab])]
    exact stringLtB_asymm _ _ h

theorem reportLess_false_trans {x y z : JobReport} (h1 : reportLess y x = false)
    (h2 : reportLess z y = false) : reportLess z x = false := by
  simp only [reportLess] at h1 h2 ⊢
  by_cases hyx : y.host = x.host <;> by_cases hzy : z.host = y.host
  · rw [if_neg (by simp [hyx])] at h1
    rw [if_neg (by simp [hzy])] at h2
    rw [if_neg (by simp [hzy.trans hyx])]
    simp only [decide_eq_false_iff_not, not_lt] at h1 h2 ⊢
    omega
  · have hzx : z.host ≠ x.host := fun he => hzy (he.trans hyx.symm)
    rw [if_pos (by simp [hzy])] at h2
    rw [if_pos (by simp [hzx])]
    rw [hyx] at h2
    exact h2
  · have hzx : z.host ≠ x.host := fun he => hyx (hzy.symm.trans he)
    rw [if_pos (by simp [hyx])] at h1
    rw [if_pos (by simp [hzx])]
    rw [← hzy] at h1
    exact h1
  · rw [if_pos (by simp [hyx])] at h1
    rw [if_pos (by simp [hzy])] at h2
    by_cases hzx : z.host = x.host
    · exfalso
      rw [hzx] at h2
      exact hyx (stringLtB_antisymm _ _ h2 h1).symm
    · rw [if_pos (by simp [hzx])]
      exact stringLtB_false_trans _ _ _ h1 h2

theorem insertSorted_perm (x : JobReport) (l : List JobReport) :
    (insertSorted x l).Perm (x :: l) := by
  induction l with
  | nil => exact List.Perm.refl _
  | cons y ys ih =>
    simp only [insertSorted]
    split_ifs with h
    · exact (ih.cons y).trans (List.Perm.swap x y ys)
    · exact List.Perm.refl _

theorem insertSorted_pairwise (x : JobReport) (l : List JobReport)
    (hl : l.Pairwise (fun a b => reportLess b a = false)) :
    (insertSorted x l).Pairwise (fun a b => reportLess b a = false) := by
  induction l with
  | nil => simp [insertSorted]
  | cons y ys ih =>
    obtain ⟨hy, hys⟩ := List.pairwise_cons.mp hl
    simp only [insertSorted]
    split_ifs with h
    · refine List.pairwise_cons.mpr ⟨?_, ih hys⟩
      intro z hz
      have hz2 : z ∈ x :: ys := (insertSorted_perm x ys).mem_iff.mp hz
      rcases List.mem_cons.mp hz2 with rfl | hz3
      · exact reportLess_asymm _ _ h
      · exact hy z hz3
    · refine List.pairwise_cons.mpr ⟨?_, hl⟩
      intro z hz
      rcases List.mem_cons.mp hz with rfl | hz3
      · exact Bool.eq_false_iff.mpr (fun ht => by simp [ht] at h)
      · exact reportLess_false_trans
          (Bool.eq_false_iff.mpr (fun ht => by simp [ht] at h)) (hy z hz3)

theorem sortReports_perm (l : List JobReport) : (sortReports l).Perm l := by
  induction l with
  | nil => exact List.Perm.refl _
  | cons x xs ih =>
    exact (insertSorted_perm x (sortReports xs)).trans (ih.cons x)

theorem sortReports_pairwise (l : List JobReport) :
    (sortReports l).Pairwise (fun a b => reportLess b a = false) := by
  induction l with
  | nil => simp [sortReports]
  | cons x xs ih => exact insertSorted_pairwise x (sortReports xs) ih

/-- C1: the announce pass on a state row with isReported = false whose key
is absent from the aggregated-job map.  The claim says the pass emits a
zero-valued best-effort announcement and completes; in the code the lookup
`job, _ := logs[k]` on a map of pointers yields nil and the subsequent
`job.user` dereference panics, so the pass does not complete (modelled as
`none`). -/
theorem c1_announce_nil_lookup_panics :
    createCpuhogReport [(JobKey.mk 1 "ml1", JobState.mk 1 "ml1" 0 0 0 false)] [] =
      none := rfl

/-- C2 (amended): the JSON array is exactly the announcement list in
announce-pass production order (the state map's iteration order), while the
text report is a permutation of the same announcement list sorted by host
lexicographically then job id ascending.  Text and JSON carry the same
event multiset, but the JSON array is not sorted (see the
counterexample). -/
theorem c2_text_sorted_json_in_production_order (events : List PerEvent) :
    jsonMarshalEvents events = events ∧
    (writeCpuhogReport events).Perm
      (events.map (fun e => JobReport.mk e.id e.host (renderCpuhogEvent e))) ∧
    (writeCpuhogReport events).Pairwise (fun a b => reportLess b a = false) :=
  ⟨rfl, sortReports_perm _, sortReports_pairwise _⟩

/-- A two-row state whose iteration order is not key-sorted. -/
def stateC2 : StateMap :=
  [(JobKey.mk 1 "b", JobState.mk 1 "b" 0 0 0 false),
   (JobKey.mk 2 "a", JobState.mk 2 "a" 0 0 0 false)]

/-- The matching aggregated jobs. -/
def logsC2 : JobMap :=
  [(JobKey.mk 1 "b", CpuhogJob.mk 1 "b" "u" "c" 0 0 0 0 0 0 0 0 0 0),
   (JobKey.mk 2 "a", CpuhogJob.mk 2 "a" "u" "c" 0 0 0 0 0 0 0 0 0 0)]

/-- C2 counterexample: for this invocation the JSON array lists (b,1) before
(a,2) — the map-iteration production order — while the text paragraphs are
sorted to (a,2), (b,1).  The two surfaces do not present the events in the
same order and the JSON array is not sorted by (host, id), refuting the
claim as stated. -/
theorem c2_json_order_counterexample :
    (createCpuhogReport stateC2 logsC2).map
        (fun pr => ((jsonMarshalEvents pr.2).map (fun e => (e.host, e.id)),
          (writeCpuhogReport pr.2).map (fun r => (r.host, r.id)))) =
      some ([("b", 1), ("a", 2)], [("a", 2), ("b", 1)]) ∧
    ([("b", 1), ("a", 2)] : List (String × Nat)) ≠ [("a", 2), ("b", 1)] := by
  constructor
  · decide
  · decide

/-- C6: over any event-log row stream, for any job key with at least one
surviving row, the aggregated job pins id, host, user, cmd from the first
surviving row of that key, takes firstSeen/start as the minimum of the
rows' now/start fields, lastSeen/end as the maximum of now/end, and each
kind-specific numeric as the maximum across the rows. -/
theorem c6_aggregation (rows : List RawRow) (k : JobKey) (r0 : CpuhogRecord)
    (rest : List CpuhogRecord)
    (hfilter : (rows.filterMap parseCpuhogRow).filter
        (fun rec => JobKey.mk rec.id rec.host == k) = r0 :: rest) :
    ∃ j, lookupJob (readLogRows rows) k = some j ∧
      j.id = r0.id ∧ j.host = r0.host ∧ j.user = r0.user ∧ j.cmd = r0.cmd ∧
      isMinOf j.firstSeen ((r0 :: rest).map CpuhogRecord.now) ∧
      isMaxOf j.lastSeen ((r0 :: rest).map CpuhogRecord.now) ∧
      isMinOf j.start ((r0 :: rest).map CpuhogRecord.start) ∧
      isMaxOf j.endT ((r0 :: rest).map CpuhogRecord.endT) ∧
      isMaxOf j.cpuPeak ((r0 :: rest).map CpuhogRecord.cpuPeak) ∧
      isMaxOf j.gpuPeak ((r0 :: rest).map CpuhogRecord.gpuPeak) ∧
      isMaxOf j.rcpuAvg ((r0 :: rest).map CpuhogRecord.rcpuAvg) ∧
      isMaxOf j.rcpuPeak ((r0 :: rest).map CpuhogRecord.rcpuPeak) ∧
      isMaxOf j.rmemAvg ((r0 :: rest).map CpuhogRecord.rmemAvg) ∧
      isMaxOf j.rmemPeak ((r0 :: rest).map CpuhogRecord.rmemPeak) := by
  have hl := lookupJob_foldl (rows.filterMap parseCpuhogRow) [] k
  rw [hfilter] at hl
  simp only [List.foldl_cons] at hl
  rw [show stepK (lookupJob ([] : JobMap) k) r0 = some (initJob r0) from rfl] at hl
  obtain ⟨j2, heq, hid, hhost, huser, hcmd, h1, h2, h3, h4, h5, h6, h7, h8, h9, h10⟩ :=
    stepK_foldl_spec rest (initJob r0)
  refine ⟨j2, ?_, hid, hhost, huser, hcmd, ?_, ?_, ?_, ?_, ?_, ?_, ?_, ?_, ?_, ?_⟩
  · rw [show readLogRows rows = (rows.filterMap parseCpuhogRow).foldl ingestRecord []
      from rfl, hl, heq]
  · simpa [initJob] using h1
  · simpa [initJob] using h2
  · simpa [initJob] using h3
  · simpa [initJob] using h4
  · simpa [initJob] using h5
  · simpa [initJob] using h6
  · simpa [initJob] using h7
  · simpa [initJob] using h8
  · simpa [initJob] using h9
  · simpa [initJob] using h10

/-- First raw event-log row of the two-day-fold scenario. -/
def rowC6a : RawRow :=
  [("tag", "cpuhog"), ("now", "2023-09-06 12:00"), ("jobm", "2712710"),
   ("user", "u"), ("host", "ml6"), ("cmd", "c"), ("cpu-peak", "100"),
   ("gpu-peak", "0"), ("rcpu-avg", "3"), ("rcpu-peak", "41"),
   ("rmem-avg", "12"), ("rmem-peak", "14"), ("start", "2023-09-06 07:35"),
   ("end", "2023-09-06 16:00")]

/-- Second raw event-log row, next day, same job key. -/
def rowC6b : RawRow :=
  [("tag", "cpuhog"), ("now", "2023-09-07 14:00"), ("jobm", "2712710"),
   ("user", "u"), ("host", "ml6"), ("cmd", "c"), ("cpu-peak", "2615"),
   ("gpu-peak", "0"), ("rcpu-avg", "2"), ("rcpu-peak", "30"),
   ("rmem-avg", "13"), ("rmem-peak", "13"), ("start", "2023-09-07 06:45"),
   ("end", "2023-09-07 13:55")]

/-- What rowC6a parses to. -/
def recC6a : CpuhogRecord :=
  CpuhogRecord.mk 1694001600 2712710 "u" "ml6" "c" 100 0 3 41 12 14
    1693985700 1694016000

/-- What rowC6b parses to. -/
def recC6b : CpuhogRecord :=
  CpuhogRecord.mk 1694095200 2712710 "u" "ml6" "c" 2615 0 2 30 13 13
    1694069100 1694094900

theorem c6_aggregation_witness :
    (lookupJob (readLogRows [rowC6a, rowC6b]) (JobKey.mk 2712710 "ml6")).isSome =
      true := by
  obtain ⟨j, hj, _⟩ :=
    c6_aggregation [rowC6a, rowC6b] (JobKey.mk 2712710 "ml6") recC6a [recC6b]
      (by decide)
  simp [hj]

/-! ## The reconciler's purge and insert/update passes (C3, C4) -/

/-- The purge cutoff of the reconciler:
`util.MinTime(progOpts.From, progOpts.To.AddDate(0, 0, -2))`. -/
def purgeCutoff (fromT toT : Int) : Int := minTime fromT (addDays toT (-2))

/-- The key-collection loop of the purge: rows with
`jobState.LastSeen.Before(cutoff) && jobState.IsReported` (structure of
jobstate.Purge, with the cutoff passed in). -/
def deadKeys (s : StateMap) (cutoff : Int) : List JobKey :=
  (s.filter (fun kv => decide (kv.2.lastSeen < cutoff) && kv.2.isReported)).map Prod.fst

/-- Go `delete(state, k)` on the association-list map. -/
def deleteKey (s : StateMap) (k : JobKey) : StateMap :=
  s.filter (fun kv => !(kv.1 == k))

/-- Modelled from the spec: jobstate.PurgeJobsBefore, which the reconcilers
call but whose body is not among the repository's files.  Per the spec's
purge pass it deletes every state row with `isReported = true` and
`lastSeen < cutoff`; the collect-then-delete structure follows
jobstate.Purge, the surviving in-repository revision of the purge. -/
def purgeJobsBefore (s : StateMap) (cutoff : Int) : StateMap :=
  (deadKeys s cutoff).foldl deleteKey s

/-- Modelled from the spec: jobstate.EnsureJob, which the reconcilers call
but whose body is not among the repository's files.  Insert/update pass: a
missing key inserts a fresh unreported row (`startedOnOrBefore = start`,
`firstViolation = now`, `lastSeen = lastSeen`) and returns true (a new
candidate); an existing key replaces `lastSeen` and tightens
`startedOnOrBefore` with `min`, returning false. -/
def ensureJob (s : StateMap) (id : Nat) (host : String) (start now lastSeen : Int) :
    StateMap × Bool :=
  let k := JobKey.mk id host
  if hasKey s k then
    (s.map (fun kv => if kv.1 == k then
        (kv.1, { kv.2 with
                 startedOnOrBefore := minTime kv.2.startedOnOrBefore start
                 lastSeen := lastSeen })
      else kv), false)
  else
    (s ++ [(k, JobState.mk id host start now lastSeen false)], true)

/-- The insert/update loop of MlCpuhog: one EnsureJob call per aggregated
job, in map iteration order. -/
def ensureAll (s : StateMap) (logs : JobMap) (now : Int) : StateMap :=
  logs.foldl (fun acc kv =>
    (ensureJob acc kv.2.id kv.2.host kv.2.start now kv.2.lastSeen).1) s

/-- One full MlCpuhog invocation on already-read log rows: the state read
from disk is `s`; then the insert/update pass, the purge at the spec's
cutoff, and the announce pass run in order, and the returned state is what
WriteJobState persists.  `none` models the announce pass's nil-pointer
panic. -/
def runInvocation (s : StateMap) (rows : List RawRow) (now fromT toT : Int) :
    Option (StateMap × List PerEvent) :=
  let logs := readLogRows rows
  createCpuhogReport (purgeJobsBefore (ensureAll s logs now) (purgeCutoff fromT toT)) logs

theorem mem_foldl_deleteKey (ks : List JobKey) (s : StateMap) (kv : JobKey × JobState) :
    kv ∈ ks.foldl deleteKey s ↔ kv ∈ s ∧ kv.1 ∉ ks := by
  induction ks generalizing s with
  | nil => simp
  | cons k ks ih =>
    rw [List.foldl_cons, ih]
    simp only [deleteKey, List.mem_filter, List.mem_cons, Bool.not_eq_true',
      beq_eq_false_iff_ne, ne_eq]
    constructor
    · rintro ⟨⟨hs, hk⟩, hks⟩
      exact ⟨hs, fun h => h.elim (fun h1 => hk h1) (fun h2 => hks h2)⟩
    · rintro ⟨hs, hnk⟩
      exact ⟨⟨hs, fun h => hnk (Or.inl h)⟩, fun h => hnk (Or.inr h)⟩

theorem mem_deadKeys (s : StateMap) (cutoff : Int) (k : JobKey) :
    k ∈ deadKeys s cutoff ↔
      ∃ kv, kv ∈ s ∧ kv.1 = k ∧ kv.2.isReported = true ∧ kv.2.lastSeen < cutoff := by
  simp only [deadKeys, List.mem_map, List.mem_filter, Bool.and_eq_true,
    decide_eq_true_eq]
  constructor
  · rintro ⟨kv, ⟨hs, hlt, hrep⟩, hk⟩
    exact ⟨kv, hs, hk, hrep, hlt⟩
  · rintro ⟨kv, hs, hk, hrep, hlt⟩
    exact ⟨kv, ⟨hs, hlt, hrep⟩, hk⟩

theorem fst_nodup_inj {l : StateMap} (hnd : (l.map Prod.fst).Nodup)
    {a b : JobKey × JobState} (ha : a ∈ l) (hb : b ∈ l) (hab : a.1 = b.1) : a = b := by
  induction l with
  | nil => cases ha
  | cons x xs ih =>
    rw [List.map_cons, List.nodup_cons] at hnd
    rcases List.mem_cons.mp ha with rfl | ha2 <;> rcases List.mem_cons.mp hb with rfl | hb2
    · rfl
    · exfalso
      apply hnd.1
      rw [hab]
      exact List.mem_map_of_mem Prod.fst hb2
    · exfalso
      apply hnd.1
      rw [← hab]
      exact List.mem_map_of_mem Prod.fst ha2
    · exact ih hnd.2 ha2 hb2

/-- C3: with the spec's cutoff `min(from, to - 2 days)`, the purge pass
deletes exactly the rows with isReported = true and lastSeen < cutoff:
membership in the purged state is characterised for every row of a
duplicate-free state, nothing new is added, every unreported row is
retained regardless of age, and afterwards no reported row is older than
the cutoff. -/
theorem c3_purge_exact (state : StateMap) (fromT toT : Int)
    (hnd : (state.map Prod.fst).Nodup) :
    (∀ kv ∈ state, (kv ∈ purgeJobsBefore state (purgeCutoff fromT toT) ↔
        ¬(kv.2.isReported = true ∧ kv.2.lastSeen < purgeCutoff fromT toT))) ∧
    (∀ kv ∈ purgeJobsBefore state (purgeCutoff fromT toT), kv ∈ state) ∧
    (∀ kv ∈ state, kv.2.isReported = false →
        kv ∈ purgeJobsBefore state (purgeCutoff fromT toT)) ∧
    (∀ kv ∈ purgeJobsBefore state (purgeCutoff fromT toT),
        kv.2.isReported = true → ¬ kv.2.lastSeen < purgeCutoff fromT toT) := by
  have hmem : ∀ kv ∈ state, (kv ∈ purgeJobsBefore state (purgeCutoff fromT toT) ↔
      ¬(kv.2.isReported = true ∧ kv.2.lastSeen < purgeCutoff fromT toT)) := by
    intro kv hkv
    rw [purgeJobsBefore, mem_foldl_deleteKey]
    constructor
    · rintro ⟨_, hnk⟩ ⟨hrep, hlt⟩
      exact hnk ((mem_deadKeys _ _ _).mpr ⟨kv, hkv, rfl, hrep, hlt⟩)
    · intro hnot
      refine ⟨hkv, fun hk => ?_⟩
      obtain ⟨kv2, hkv2, hk1, hrep2, hlt2⟩ := (mem_deadKeys _ _ _).mp hk
      have he : kv2 = kv := fst_nodup_inj hnd hkv2 hkv hk1
      subst he
      exact hnot ⟨hrep2, hlt2⟩
  refine ⟨hmem, ?_, ?_, ?_⟩
  · intro kv hkv
    rw [purgeJobsBefore, mem_foldl_deleteKey] at hkv
    exact hkv.1
  · intro kv hkv hrep
    exact (hmem kv hkv).mpr (fun hc => by rw [hrep] at hc; simp at hc)
  · intro kv hkv hrep hlt
    have hs : kv ∈ state := by
      rw [purgeJobsBefore, mem_foldl_deleteKey] at hkv
      exact hkv.1
    exact ((hmem kv hs).mp hkv) ⟨hrep, hlt⟩

/-- A two-row state for the purge witness: an old reported row (purged) and
an equally old unreported row (retained). -/
def stateC3 : StateMap :=
  [(JobKey.mk 1 "a", JobState.mk 1 "a" 0 0 1000 true),
   (JobKey.mk 2 "b", JobState.mk 2 "b" 0 0 1000 false)]

theorem c3_purge_exact_witness :
    (∀ kv ∈ stateC3, kv.2.isReported = false →
        kv ∈ purgeJobsBefore stateC3 (purgeCutoff 864000 1728000)) ∧
    (∀ kv ∈ purgeJobsBefore stateC3 (purgeCutoff 864000 1728000),
        kv.2.isReported = true → ¬ kv.2.lastSeen < purgeCutoff 864000 1728000) :=
  ⟨(c3_purge_exact stateC3 864000 1728000 (by decide)).2.2.1,
   (c3_purge_exact stateC3 864000 1728000 (by decide)).2.2.2⟩

theorem hasKey_eq_false_iff (s : StateMap) (k : JobKey) :
    hasKey s k = false ↔ k ∉ s.map Prod.fst := by
  rw [← Bool.not_eq_true, hasKey]
  simp only [List.any_eq_true, beq_iff_eq]
  constructor
  · intro h hmem
    rw [List.mem_map] at hmem
    obtain ⟨kv, hkv, hk1⟩ := hmem
    exact h ⟨kv, hkv, hk1⟩
  · intro h hex
    obtain ⟨kv, hkv, hk1⟩ := hex
    exact h (List.mem_map.mpr ⟨kv, hkv, hk1⟩)

theorem ensureJob_fst (s : StateMap) (idv : Nat) (host : String)
    (start now lastSeen : Int) :
    ((ensureJob s idv host start now lastSeen).1.map Prod.fst) =
      if hasKey s (JobKey.mk idv host) then s.map Prod.fst
      else s.map Prod.fst ++ [JobKey.mk idv host] := by
  simp only [ensureJob]
  by_cases hk : hasKey s (JobKey.mk idv host)
  · rw [if_pos hk, if_pos hk, List.map_map]
    refine List.map_congr_left (fun kv _ => ?_)
    simp only [Function.comp_apply]
    split_ifs <;> rfl
  · rw [if_neg hk, if_neg hk, List.map_append]
    rfl

theorem ensureJob_nodup (s : StateMap) (idv : Nat) (host : String)
    (start now lastSeen : Int) (hnd : (s.map Prod.fst).Nodup) :
    (((ensureJob s idv host start now lastSeen).1).map Prod.fst).Nodup := by
  rw [ensureJob_fst]
  by_cases hk : hasKey s (JobKey.mk idv host)
  · rwa [if_pos hk]
  · rw [if_neg hk, List.nodup_append]
    refine ⟨hnd, List.nodup_singleton _, ?_⟩
    intro a ha hb
    rw [List.mem_singleton] at hb
    subst hb
    exact (hasKey_eq_false_iff s _).mp (Bool.eq_false_iff.mpr hk) ha

theorem ensureJob_coherent (s : StateMap) (idv : Nat) (host : String)
    (start now lastSeen : Int)
    (hc : ∀ kv ∈ s, kv.1 = JobKey.mk kv.2.id kv.2.host) :
    ∀ kv ∈ (ensureJob s idv host start now lastSeen).1,
      kv.1 = JobKey.mk kv.2.id kv.2.host := by
  simp only [ensureJob]
  by_cases hk : hasKey s (JobKey.mk idv host)
  · rw [if_pos hk]
    intro kv hkv
    rw [List.mem_map] at hkv
    obtain ⟨kv0, hkv0, rfl⟩ := hkv
    by_cases he : (kv0.1 == JobKey.mk idv host) = true
    · simp only [if_pos he]
      exact hc kv0 hkv0
    · simp only [if_neg he]
      exact hc kv0 hkv0
  · rw [if_neg hk]
    intro kv hkv
    rw [List.mem_append] at hkv
    rcases hkv with hkv | hkv
    · exact hc kv hkv
    · rw [List.mem_singleton] at hkv
      subst hkv
      rfl

theorem ensureAll_nodup (logs : JobMap) (s : StateMap) (now : Int)
    (hnd : (s.map Prod.fst).Nodup) : ((ensureAll s logs now).map Prod.fst).Nodup := by
  induction logs generalizing s with
  | nil => exact hnd
  | cons kv rest ih =>
    simp only [ensureAll, List.foldl_cons]
    have h1 := ensureJob_nodup s kv.2.id kv.2.host kv.2.start now kv.2.lastSeen hnd
    have h2 := ih _ h1
    simpa [ensureAll] using h2

theorem ensureAll_coherent (logs : JobMap) (s : StateMap) (now : Int)
    (hc : ∀ kv ∈ s, kv.1 = JobKey.mk kv.2.id kv.2.host) :
    ∀ kv ∈ ensureAll s logs now, kv.1 = JobKey.mk kv.2.id kv.2.host := by
  induction logs generalizing s with
  | nil => exact hc
  | cons kv rest ih =>
    simp only [ensureAll, List.foldl_cons]
    have h1 := ensureJob_coherent s kv.2.id kv.2.host kv.2.start now kv.2.lastSeen hc
    have h2 := ih _ h1
    simpa [ensureAll] using h2

theorem foldl_deleteKey_sublist (ks : List JobKey) (s : StateMap) :
    (ks.foldl deleteKey s).Sublist s := by
  induction ks generalizing s with
  | nil => exact List.Sublist.refl s
  | cons k ks ih =>
    rw [List.foldl_cons]
    have h2 : (deleteKey s k).Sublist s := by
      rw [deleteKey]
      exact List.filter_sublist s
    exact (ih _).trans h2

theorem createCpuhogReport_state (s : StateMap) (logs : JobMap)
    (s2 : StateMap) (evs : List PerEvent)
    (h : createCpuhogReport s logs = some (s2, evs)) :
    s2 = s.map (fun kv => (kv.1, { kv.2 with isReported := true })) := by
  induction s generalizing s2 evs with
  | nil =>
    simp only [createCpuhogReport, Option.some.injEq, Prod.mk.injEq] at h
    rw [← h.1]
    rfl
  | cons kv rest ih =>
    obtain ⟨k, st⟩ := kv
    simp only [createCpuhogReport] at h
    by_cases hrep : st.isReported = true
    · rw [if_pos hrep] at h
      cases hrec : createCpuhogReport rest logs with
      | none => rw [hrec] at h; simp at h
      | some pr =>
        rw [hrec] at h
        obtain ⟨pr1, pr2⟩ := pr
        simp only [Option.map_some', Option.some.injEq, Prod.mk.injEq] at h
        obtain ⟨h1, h2⟩ := h
        rw [← h1, List.map_cons]
        have hh : (k, st) = (k, { st with isReported := true }) := by
          obtain ⟨i1, h1', s1, f1, l1, r1⟩ := st
          simp only at hrep
          rw [hrep]
        rw [← hh, ih pr1 pr2 hrec]
    · rw [if_neg hrep] at h
      cases hlook : lookupJob logs k with
      | none => rw [hlook] at h; simp at h
      | some job =>
        rw [hlook] at h
        cases hrec : createCpuhogReport rest logs with
        | none => rw [hrec] at h; simp at h
        | some pr =>
          rw [hrec] at h
          obtain ⟨pr1, pr2⟩ := pr
          simp only [Option.map_some', Option.some.injEq, Prod.mk.injEq] at h
          obtain ⟨h1, h2⟩ := h
          rw [← h1, List.map_cons, ih pr1 pr2 hrec]

theorem createCpuhogReport_events (s : StateMap) (logs : JobMap)
    (s2 : StateMap) (evs : List PerEvent)
    (h : createCpuhogReport s logs = some (s2, evs)) :
    evs.map (fun e => (e.host, e.id)) =
      (s.filter (fun kv => !kv.2.isReported)).map (fun kv => (kv.2.host, kv.2.id)) := by
  induction s generalizing s2 evs with
  | nil =>
    simp only [createCpuhogReport, Option.some.injEq, Prod.mk.injEq] at h
    rw [← h.2]
    rfl
  | cons kv rest ih =>
    obtain ⟨k, st⟩ := kv
    simp only [createCpuhogReport] at h
    by_cases hrep : st.isReported = true
    · rw [if_pos hrep] at h
      cases hrec : createCpuhogReport rest logs with
      | none => rw [hrec] at h; simp at h
      | some pr =>
        rw [hrec] at h
        obtain ⟨pr1, pr2⟩ := pr
        simp only [Option.map_some', Option.some.injEq, Prod.mk.injEq] at h
        obtain ⟨h1, h2⟩ := h
        rw [← h2, List.filter_cons_of_neg (by simp [hrep])]
        exact ih pr1 pr2 hrec
    · rw [if_neg hrep] at h
      cases hlook : lookupJob logs k with
      | none => rw [hlook] at h; simp at h
      | some job =>
        rw [hlook] at h
        cases hrec : createCpuhogReport rest logs with
        | none => rw [hrec] at h; simp at h
        | some pr =>
          rw [hrec] at h
          obtain ⟨pr1, pr2⟩ := pr
          simp only [Option.map_some', Option.some.injEq, Prod.mk.injEq] at h
          obtain ⟨h1, h2⟩ := h
          rw [← h2, List.map_cons,
            List.filter_cons_of_pos (by simp [Bool.eq_false_iff.mpr hrep]),
            List.map_cons]
          rw [ih pr1 pr2 hrec]
          rfl

theorem keys_pair_nodup (s : StateMap) (hnd : (s.map Prod.fst).Nodup)
    (hc : ∀ kv ∈ s, kv.1 = JobKey.mk kv.2.id kv.2.host) :
    (s.map (fun kv => (kv.2.host, kv.2.id))).Nodup := by
  have h1 : s.map (fun kv => (kv.2.host, kv.2.id)) =
      (s.map Prod.fst).map (fun k => (k.host, k.id)) := by
    rw [List.map_map]
    refine List.map_congr_left (fun kv hkv => ?_)
    rw [Function.comp_apply, hc kv hkv]
  rw [h1]
  have hinj : Function.Injective (fun k : JobKey => (k.host, k.id)) := by
    intro a b hab
    obtain ⟨a1, a2⟩ := a
    obtain ⟨b1, b2⟩ := b
    simp only [Prod.mk.injEq] at hab
    rw [hab.1, hab.2]
  exact hnd.map hinj

theorem filter_pair_nodup (s : StateMap) (p : JobKey × JobState → Bool)
    (hnd : (s.map Prod.fst).Nodup)
    (hc : ∀ kv ∈ s, kv.1 = JobKey.mk kv.2.id kv.2.host) :
    ((s.filter p).map (fun kv => (kv.2.host, kv.2.id))).Nodup := by
  refine keys_pair_nodup (s.filter p) ?_ ?_
  · exact List.Nodup.sublist (List.Sublist.map Prod.fst (List.filter_sublist s)) hnd
  · intro kv hkv
    exact hc kv (List.mem_of_mem_filter hkv)

/-- C4 (amended): within one invocation (insert/update, purge, announce)
the isReported flag never reverts: every row of the state handed to
WriteJobState is reported, so in particular a row reported on entry stays
reported wherever its key survives, and the announce pass emits each
announced (host, id) key exactly once.  Across invocations the
exactly-once part of the original claim fails: a reported key purged in
one invocation and seen again later is announced again (see the
counterexample). -/
theorem c4_reported_monotone (state : StateMap) (rows : List RawRow)
    (now fromT toT : Int) (state2 : StateMap) (events : List PerEvent)
    (hnd : (state.map Prod.fst).Nodup)
    (hcoh : ∀ kv ∈ state, kv.1 = JobKey.mk kv.2.id kv.2.host)
    (hrun : runInvocation state rows now fromT toT = some (state2, events)) :
    (∀ kv ∈ state2, kv.2.isReported = true) ∧
    (∀ kv ∈ state, kv.2.isReported = true →
        ∀ kv2 ∈ state2, kv2.1 = kv.1 → kv2.2.isReported = true) ∧
    (events.map (fun e => (e.host, e.id))).Nodup := by
  simp only [runInvocation] at hrun
  have hstate := createCpuhogReport_state _ _ _ _ hrun
  have hevents := createCpuhogReport_events _ _ _ _ hrun
  have hall : ∀ kv ∈ state2, kv.2.isReported = true := by
    intro kv hkv
    rw [hstate, List.mem_map] at hkv
    obtain ⟨kv0, _, rfl⟩ := hkv
    rfl
  refine ⟨hall, fun kv _ _ kv2 hkv2 _ => hall kv2 hkv2, ?_⟩
  rw [hevents]
  have hnd2 : ((purgeJobsBefore (ensureAll state (readLogRows rows) now)
      (purgeCutoff fromT toT)).map Prod.fst).Nodup := by
    rw [purgeJobsBefore]
    exact List.Nodup.sublist
      (List.Sublist.map Prod.fst (foldl_deleteKey_sublist _ _))
      (ensureAll_nodup (readLogRows rows) state now hnd)
  have hcoh2 : ∀ kv ∈ purgeJobsBefore (ensureAll state (readLogRows rows) now)
      (purgeCutoff fromT toT), kv.1 = JobKey.mk kv.2.id kv.2.host := by
    intro kv hkv
    rw [purgeJobsBefore, mem_foldl_deleteKey] at hkv
    exact ensureAll_coherent (readLogRows rows) state now hcoh kv hkv.1
  exact filter_pair_nodup _ _ hnd2 hcoh2

/-- The first invocation of the witness scenario. -/
def c4Run : Option (StateMap × List PerEvent) :=
  runInvocation [] [rowC6a] 1694001600 1693958400 1694044800

theorem c4_reported_monotone_witness :
    (∀ kv ∈ (c4Run.getD ([], [])).1, kv.2.isReported = true) ∧
    (∀ kv ∈ ([] : StateMap), kv.2.isReported = true →
        ∀ kv2 ∈ (c4Run.getD ([], [])).1, kv2.1 = kv.1 → kv2.2.isReported = true) ∧
    (((c4Run.getD ([], [])).2.map (fun e => (e.host, e.id))).Nodup) :=
  c4_reported_monotone [] [rowC6a] 1694001600 1693958400 1694044800
    (c4Run.getD ([], [])).1 (c4Run.getD ([], [])).2 (by decide) (by simp) (by rfl)

/-- C4 counterexample: the job key (host ml6, id 2712710) is announced in
invocation 1, purged in invocation 2 (not seen there, reported, more than
2 days stale), and announced again in invocation 3 when it reappears in
the logs: across the invocations in which the key is seen it is announced
twice, not exactly once. -/
theorem c4_reannounce_counterexample :
    ((runInvocation [] [rowC6a] 1694001600 1693958400 1694044800).bind fun p1 =>
      (runInvocation p1.1 [] 1694260900 1694260800 1694347200).bind fun p2 =>
      (runInvocation p2.1 [rowC6b] 1694095200 1694044800 1694131200).map fun p3 =>
        (p1.2.map fun e => (e.host, e.id), p2.2.map fun e => (e.host, e.id),
         p3.2.map fun e => (e.host, e.id))) =
      some ([("ml6", 2712710)], [], [("ml6", 2712710)]) := by decide

/-! ## util.matchWhen and the window resolution of util.Parse (C7) -/

/-- The dateRe branch of matchWhen: `^(\d\d\d\d)-(\d\d)-(\d\d)$`, then
`time.Date(yyyy, mm, dd, 0, 0, 0, 0, time.UTC)` (ParseUint cannot fail or
clamp on these 2- and 4-digit fields). -/
def matchDate (cs : List Char) : Option Int :=
  if (cs.length == 10) && (cs[4]? == some '-') && (cs[7]? == some '-') &&
      (cs.take 4).all Char.isDigit && ((cs.drop 5).take 2).all Char.isDigit &&
      ((cs.drop 8).take 2).all Char.isDigit then
    some (dateUTC (parseNatChars (cs.take 4)) (parseNatChars ((cs.drop 5).take 2))
      (parseNatChars ((cs.drop 8).take 2)))
  else none

/-- The `^(\d+)x$` matcher shared by daysRe and weeksRe: one or more digits
followed by the literal suffix, with the value read by
`strconv.ParseUint(digits, 10, 32)` whose error is discarded, so a value of
2^32 or more is silently clamped to 2^32 - 1. -/
def digitsThen (suffix : Char) (cs : List Char) : Option Nat :=
  if (cs.getLast? == some suffix) && !cs.dropLast.isEmpty &&
      cs.dropLast.all Char.isDigit then
    some (parseUint32Sat cs.dropLast)
  else none

/-- util.matchWhen: try the YYYY-MM-DD, Nd, Nw patterns in order;
`time.Now().UTC()` is the parameter `nowT`.  The Nd/Nw results are
`now - N (or 7N) days`, truncated to the UTC day afterwards. -/
def matchWhen (nowT : Int) (s : String) : Option Int :=
  Option.orElse (matchDate s.data) fun _ =>
    Option.orElse
      ((digitsThen 'd' s.data).map fun (n : Nat) => truncDay (addDays nowT (-(n : Int))))
      fun _ =>
        (digitsThen 'w' s.data).map fun (n : Nat) =>
          truncDay (addDays nowT (-((n : Int) * 7)))

/-- The window resolution of util.Parse: `from` must parse; `to` defaults
to now when absent; the resolved To is then advanced one day and truncated
to its UTC midnight, making `[from, to)` half-open on the right. -/
def parseWindow (nowT : Int) (fromStr toStr : String) : Option (Int × Int) :=
  match matchWhen nowT fromStr with
  | none => none
  | some f =>
    match (if toStr = "" then some nowT else matchWhen nowT toStr) with
    | none => none
    | some t0 => some (f, truncDay (addDays t0 1))

theorem orElse_none_fun {α : Type} (f : Unit → Option α) :
    Option.orElse none f = f () := rfl

theorem orElse_some_fun {α : Type} (a : α) (f : Unit → Option α) :
    Option.orElse (some a) f = some a := rfl

theorem string_append_data (a b : String) : (a ++ b).data = a.data ++ b.data := by
  cases a
  cases b
  rfl

theorem truncDay_emod (x : Int) : (truncDay x).emod 86400 = 0 := by
  show (x - x % 86400) % 86400 = 0
  rw [Int.sub_emod, Int.emod_emod_of_dvd _ (dvd_refl _), sub_self, Int.zero_emod]

theorem truncDay_idem (x : Int) : truncDay (truncDay x) = truncDay x := by
  show truncDay x - (truncDay x).emod secPerDay = truncDay x
  rw [show secPerDay = (86400 : Int) from rfl, truncDay_emod, sub_zero]

theorem truncDay_dateUTC (y m d : Int) : truncDay (dateUTC y m d) = dateUTC y m d := by
  show dateUTC y m d - (dateUTC y m d).emod secPerDay = dateUTC y m d
  have h : (dateUTC y m d).emod secPerDay = 0 := by
    show (secPerDay * daysFromCivil (y + (m - 1) / 12) ((m - 1).emod 12 + 1) d).emod
      secPerDay = 0
    exact Int.mul_emod_right _ _
  rw [h, sub_zero]

theorem matchDate_append_nondigit (ds : List Char) (c : Char)
    (hc : c.isDigit = false) :
    matchDate (ds ++ [c]) = none := by
  unfold matchDate
  by_cases hlen : ds.length = 9
  · have h8 : (ds ++ [c]).drop 8 = ds.drop 8 ++ [c] :=
      List.drop_append_of_le_length (by omega)
    obtain ⟨x, hx⟩ := List.length_eq_one.mp
      (show (ds.drop 8).length = 1 by rw [List.length_drop]; omega)
    have h10 : (((ds ++ [c]).drop 8).take 2).all Char.isDigit = false := by
      rw [h8, hx]
      simp [hc]
    rw [h10, Bool.and_false]
    simp
  · have h1 : ((ds ++ [c]).length == 10) = false := by
      rw [List.length_append]
      simp only [List.length_singleton, beq_eq_false_iff_ne, ne_eq]
      omega
    rw [h1]
    simp

theorem digitsThen_concat (suffix : Char) (ds : List Char)
    (hne : ds ≠ []) (hd : ds.all Char.isDigit = true) :
    digitsThen suffix (ds ++ [suffix]) = some (parseUint32Sat ds) := by
  unfold digitsThen
  have h1 : (ds ++ [suffix]).getLast? = some suffix := List.getLast?_concat ds
  have h2 : (ds ++ [suffix]).dropLast = ds := List.dropLast_concat
  rw [h1, h2]
  have hcnd : (((some suffix : Option Char) == some suffix) && !ds.isEmpty &&
      ds.all Char.isDigit) = true := by
    simp [hd, List.isEmpty_iff, hne]
  rw [if_pos hcnd]

theorem digitsThen_wrong_suffix (suffix c : Char) (ds : List Char)
    (hc : (c == suffix) = false) :
    digitsThen suffix (ds ++ [c]) = none := by
  unfold digitsThen
  have h1 : (ds ++ [c]).getLast? = some c := List.getLast?_concat ds
  rw [h1]
  have h2 : ((some c : Option Char) == some suffix) = (c == suffix) := rfl
  rw [h2, hc]
  simp

theorem formatNat_data_digits (n : Nat) :
    (formatNat n).data ≠ [] ∧ (formatNat n).data.all Char.isDigit = true ∧
    parseNatChars (formatNat n).data = n := by
  have h := parseNat_formatNat n
  rw [parseNat] at h
  split_ifs at h with hcond
  refine ⟨hcond.1, hcond.2, ?_⟩
  simpa using h

/-- C7 (amended): for N below 2^32, `Nd` and `Nw` resolve to now minus N
(resp. 7N) days truncated to the UTC day, an all-digit `YYYY-MM-DD`
resolves to that (normalised) date at midnight UTC, and the resolved `to`
bound of the window is advanced one day and truncated to midnight, making
`[from, to)` half-open on the right.  For N of 2^32 or more the original
claim fails: ParseUint's range error is discarded and the clamped value
2^32 - 1 is silently used instead of reporting an error (see the
counterexample). -/
theorem c7_time_specifiers (nowT : Int) :
    (∀ n : Nat, n < 4294967296 →
      matchWhen nowT (formatNat n ++ "d") =
          some (truncDay (addDays nowT (-(n : Int)))) ∧
      matchWhen nowT (formatNat n ++ "w") =
          some (truncDay (addDays nowT (-((n : Int) * 7))))) ∧
    (∀ y1 y2 y3 y4 m1 m2 d1 d2 : Char,
      y1.isDigit = true → y2.isDigit = true → y3.isDigit = true →
      y4.isDigit = true → m1.isDigit = true → m2.isDigit = true →
      d1.isDigit = true → d2.isDigit = true →
      matchWhen nowT (String.mk [y1, y2, y3, y4, '-', m1, m2, '-', d1, d2]) =
          some (dateUTC (parseNatChars [y1, y2, y3, y4]) (parseNatChars [m1, m2])
            (parseNatChars [d1, d2])) ∧
      truncDay (dateUTC (parseNatChars [y1, y2, y3, y4]) (parseNatChars [m1, m2])
          (parseNatChars [d1, d2])) =
        dateUTC (parseNatChars [y1, y2, y3, y4]) (parseNatChars [m1, m2])
          (parseNatChars [d1, d2])) ∧
    (∀ fromStr toStr f t, parseWindow nowT fromStr toStr = some (f, t) →
      matchWhen nowT fromStr = some f ∧
      ∃ t0, (if toStr = "" then some nowT else matchWhen nowT toStr) = some t0 ∧
        t = truncDay (addDays t0 1) ∧ truncDay t = t) := by
  refine ⟨?_, ?_, ?_⟩
  · intro n hn
    obtain ⟨hne, hall, hval⟩ := formatNat_data_digits n
    have hsat : parseUint32Sat (formatNat n).data = n := by
      unfold parseUint32Sat
      rw [hval]
      omega
    constructor
    · have hs : (formatNat n ++ "d").data = (formatNat n).data ++ ['d'] := by
        rw [string_append_data]
      unfold matchWhen
      rw [hs, matchDate_append_nondigit _ _ (by decide), orElse_none_fun,
        digitsThen_concat 'd' _ hne hall, Option.map_some', orElse_some_fun, hsat]
    · have hs : (formatNat n ++ "w").data = (formatNat n).data ++ ['w'] := by
        rw [string_append_data]
      unfold matchWhen
      rw [hs, matchDate_append_nondigit _ _ (by decide), orElse_none_fun,
        digitsThen_wrong_suffix 'd' 'w' _ (by decide), Option.map_none',
        orElse_none_fun, digitsThen_concat 'w' _ hne hall, Option.map_some', hsat]
  · intro y1 y2 y3 y4 m1 m2 d1 d2 hy1 hy2 hy3 hy4 hm1 hm2 hd1 hd2
    have hmd : matchDate [y1, y2, y3, y4, '-', m1, m2, '-', d1, d2] =
        some (dateUTC (parseNatChars [y1, y2, y3, y4]) (parseNatChars [m1, m2])
          (parseNatChars [d1, d2])) := by
      unfold matchDate
      split_ifs with hcnd
      · rfl
      · exfalso
        apply hcnd
        simp [hy1, hy2, hy3, hy4, hm1, hm2, hd1, hd2]
    constructor
    · unfold matchWhen
      rw [show (String.mk [y1, y2, y3, y4, '-', m1, m2, '-', d1, d2]).data =
          [y1, y2, y3, y4, '-', m1, m2, '-', d1, d2] from rfl, hmd, orElse_some_fun]
    · exact truncDay_dateUTC _ _ _
  · intro fromStr toStr f t hpw
    unfold parseWindow at hpw
    cases hf : matchWhen nowT fromStr with
    | none => rw [hf] at hpw; simp at hpw
    | some f0 =>
      rw [hf] at hpw
      cases ht0 : (if toStr = "" then some nowT else matchWhen nowT toStr) with
      | none => rw [ht0] at hpw; simp at hpw
      | some t0 =>
        rw [ht0] at hpw
        simp only [Option.some.injEq, Prod.mk.injEq] at hpw
        obtain ⟨hf0, ht⟩ := hpw
        subst hf0
        refine ⟨rfl, t0, rfl, ht.symm, ?_⟩
        rw [← ht]
        exact truncDay_idem _

theorem c7_time_specifiers_witness :
    matchWhen 1694000000 (formatNat 3 ++ "d") =
      some (truncDay (addDays 1694000000 (-((3 : Nat) : Int)))) ∧
    matchWhen 1694000000 (String.mk ['2', '0', '2', '3', '-', '0', '9', '-', '0', '6']) =
      some (dateUTC (parseNatChars ['2', '0', '2', '3']) (parseNatChars ['0', '9'])
        (parseNatChars ['0', '6'])) :=
  ⟨((c7_time_specifiers 1694000000).1 3 (by decide)).1,
   ((c7_time_specifiers 1694000000).2.1 '2' '0' '2' '3' '0' '9' '0' '6'
      (by decide) (by decide) (by decide) (by decide) (by decide) (by decide)
      (by decide) (by decide)).1⟩

/-- C7 counterexample: the specifier `4294967296d` (N = 2^32) does not
resolve to now minus 2^32 days and does not produce an error either: the
discarded ParseUint range error leaves the clamped value 2^32 - 1, which is
silently used. -/
theorem c7_overflow_counterexample :
    matchWhen 1694000000 "4294967296d" =
      some (truncDay (addDays 1694000000 (-4294967295))) ∧
    matchWhen 1694000000 "4294967296d" ≠
      some (truncDay (addDays 1694000000 (-4294967296))) ∧
    matchWhen 1694000000 "4294967296d" ≠ none :=
  ⟨by decide, by decide, by decide⟩

/-! ## mlwebload: parseOutput and writePlots (C8, C9, C10) -/

/-- Go `strings.Split(s, ",")`: split on every comma; the empty string
yields one empty field. -/
def splitCommaAux : List Char → List Char → List String
  | acc, [] => [String.mk acc.reverse]
  | acc, c :: rest =>
    if c = ',' then String.mk acc.reverse :: splitCommaAux [] rest
    else splitCommaAux (c :: acc) rest

/-- Go `strings.Split(s, ",")`. -/
def splitComma (s : String) : List String := splitCommaAux [] s.data

/-- The gpus-column interpretation of parseOutput: literal `unknown` gives
the nil slice (modelled `none`), anything else starts from the empty set,
and a non-`none` string is split on commas with each token fed to
`strconv.ParseUint(t, 10, 32)` and appended only when `err == nil` — a
malformed token is silently skipped, not a row failure. -/
def parseGpus (s : String) : Option (List Nat) :=
  if s = "unknown" then none
  else some (if s = "none" then [] else (splitComma s).filterMap parseUint32)

/-- mlwebload.datum (gpus `none` models Go's nil slice for "unknown"). -/
structure Datum where
  datetime : Int
  cpu : ℚ
  mem : ℚ
  gpu : ℚ
  gpumem : ℚ
  gpus : Option (List Nat)
  rcpu : ℚ
  rmem : ℚ
  rgpu : ℚ
  rgpumem : ℚ
  hostname : String
deriving DecidableEq

/-- mlwebload.hostData. -/
structure HostData where
  hostname : String
  data : List Datum
deriving DecidableEq

/-- The datum-building block of parseOutput's row loop: every typed
accessor feeds the shared success flag and a failed row is dropped; the
gpus column itself never clears the flag (it only needs the field to be
present as a string). -/
def parseLoadDatum (r : RawRow) (host : String) : Option Datum :=
  (getDateTime r "datetime").bind fun dt =>
  (getFloat64 r "cpu").bind fun cpu =>
  (getFloat64 r "mem").bind fun mem =>
  (getFloat64 r "gpu").bind fun gpu =>
  (getFloat64 r "gpumem").bind fun gpumem =>
  (getFloat64 r "rcpu").bind fun rcpu =>
  (getFloat64 r "rmem").bind fun rmem =>
  (getFloat64 r "rgpu").bind fun rgpu =>
  (getFloat64 r "rgpumem").bind fun rgpumem =>
  (getString r "gpus").map fun gpuRepr =>
  Datum.mk dt cpu mem gpu gpumem (parseGpus gpuRepr) rcpu rmem rgpu rgpumem host

/-- One row of parseOutput's loop over the state
(allData, curHost, curData): a row whose host field fails is skipped; a
host change closes the current bucket (when curData is non-nil) and opens
a fresh empty one; a row whose remaining fields fail is dropped but the
bucket stays open; a surviving datum is appended to the current bucket. -/
def loadStep (st : List HostData × String × Option (List Datum)) (r : RawRow) :
    List HostData × String × Option (List Datum) :=
  match getString r "host" with
  | none => st
  | some newHost =>
    let st2 : List HostData × String × Option (List Datum) :=
      if newHost ≠ st.2.1 then
        (match st.2.2 with
          | some ds => st.1 ++ [HostData.mk st.2.1 ds]
          | none => st.1,
         newHost, some [])
      else st
    match parseLoadDatum r newHost with
    | none => st2
    | some d => (st2.1, st2.2.1, some (st2.2.2.getD [] ++ [d]))

/-- mlwebload.parseOutput on the parsed free-CSV rows: fold the row loop
from (empty, "", nil) and close the last bucket if one is open. -/
def parseOutput (rows : List RawRow) : List HostData :=
  let fin := rows.foldl loadStep ([], "", none)
  match fin.2.2 with
  | some ds => fin.1 ++ [HostData.mk fin.2.1 ds]
  | none => fin.1

/-- writePlots' perPoint: x is the running uint counter, y the float. -/
structure PerPoint where
  x : Nat
  y : ℚ
deriving DecidableEq

/-- writePlots' perHost; the Go struct tags give the JSON keys hostname,
start, end, rcpu, rgpu, rmem, rgpumem in this order (`endS` carries the
key `end`). -/
structure PerHost where
  hostname : String
  start : String
  endS : String
  rcpu : List PerPoint
  rgpu : List PerPoint
  rmem : List PerPoint
  rgpumem : List PerPoint
deriving DecidableEq

/-- The JSON key list of the per-host envelope, from the struct tags of
writePlots' perHost. -/
def perHostKeys : List String :=
  ["hostname", "start", "end", "rcpu", "rgpu", "rmem", "rgpumem"]

/-- The envelope writePlots builds for one host bucket: series points are
(index, value) in input order; start is the first datum's time and end is
that time plus one hour, both formatted "2006-01-02 15:04"; the unguarded
`hd.data[0]` on an empty bucket is the index-out-of-range panic, modelled
`none`. -/
def mkPerHost (hd : HostData) : Option PerHost :=
  match hd.data with
  | [] => none
  | d0 :: _ =>
    some (PerHost.mk hd.hostname (formatDateTime d0.datetime)
      (formatDateTime (d0.datetime + 3600))
      (hd.data.enum.map fun p => PerPoint.mk p.1 p.2.rcpu)
      (hd.data.enum.map fun p => PerPoint.mk p.1 p.2.rgpu)
      (hd.data.enum.map fun p => PerPoint.mk p.1 p.2.rmem)
      (hd.data.enum.map fun p => PerPoint.mk p.1 p.2.rgpumem))

/-- mlwebload.writePlots over the parsed host buckets, in order; the first
empty bucket panics (none) before any later host is written. -/
def writePlots : List HostData → Option (List PerHost)
  | [] => some []
  | hd :: rest => (mkPerHost hd).bind fun ph => (writePlots rest).map fun tl => ph :: tl

theorem enum_points_x (l : List Datum) (g : Datum → ℚ) :
    ((l.enum.map fun p => PerPoint.mk p.1 (g p.2)).map PerPoint.x) =
      List.range l.length := by
  rw [List.map_map]
  have h1 : (PerPoint.x ∘ fun p : Nat × Datum => PerPoint.mk p.1 (g p.2)) =
      Prod.fst := by
    funext p
    rfl
  rw [h1, List.enum_map_fst]

theorem enum_points_y (l : List Datum) (g : Datum → ℚ) :
    ((l.enum.map fun p => PerPoint.mk p.1 (g p.2)).map PerPoint.y) = l.map g := by
  rw [List.map_map]
  have h1 : (PerPoint.y ∘ fun p : Nat × Datum => PerPoint.mk p.1 (g p.2)) =
      (g ∘ Prod.snd) := by
    funext p
    rfl
  rw [h1, ← List.map_map, List.enum_map_snd]

/-- C8 (amended): every non-empty host bucket yields an envelope whose
hostname is the bucket's, whose JSON keys are hostname, start, end, rcpu,
rgpu, rmem, rgpumem (not hostname, tag, bucketing, date, ...), whose four
series carry the bucket's values in original input order, and whose x
coordinates are the consecutive 0-based uint indices 0, 1, 2, ... — not
"MM-DD HH:MM" timestamp strings; start/end come from the first datum's
time and that time plus one hour. -/
theorem c8_envelope (hd : HostData) (d0 : Datum) (ds : List Datum)
    (h : hd.data = d0 :: ds) :
    ∃ ph, mkPerHost hd = some ph ∧
      ph.hostname = hd.hostname ∧
      ph.start = formatDateTime d0.datetime ∧
      ph.endS = formatDateTime (d0.datetime + 3600) ∧
      ph.rcpu.map PerPoint.x = List.range hd.data.length ∧
      ph.rgpu.map PerPoint.x = List.range hd.data.length ∧
      ph.rmem.map PerPoint.x = List.range hd.data.length ∧
      ph.rgpumem.map PerPoint.x = List.range hd.data.length ∧
      ph.rcpu.map PerPoint.y = hd.data.map Datum.rcpu ∧
      ph.rgpu.map PerPoint.y = hd.data.map Datum.rgpu ∧
      ph.rmem.map PerPoint.y = hd.data.map Datum.rmem ∧
      ph.rgpumem.map PerPoint.y = hd.data.map Datum.rgpumem := by
  obtain ⟨hn, hdata⟩ := hd
  simp only at h
  subst h
  exact ⟨_, rfl, rfl, rfl, rfl,
    enum_points_x (d0 :: ds) Datum.rcpu, enum_points_x (d0 :: ds) Datum.rgpu,
    enum_points_x (d0 :: ds) Datum.rmem, enum_points_x (d0 :: ds) Datum.rgpumem,
    enum_points_y (d0 :: ds) Datum.rcpu, enum_points_y (d0 :: ds) Datum.rgpu,
    enum_points_y (d0 :: ds) Datum.rmem, enum_points_y (d0 :: ds) Datum.rgpumem⟩

/-- First datum of the two-point witness bucket. -/
def datC8a : Datum :=
  Datum.mk 1694001600 1 1 0 0 (some []) 50 25 0 0 "ml6"

/-- Second datum of the two-point witness bucket. -/
def datC8b : Datum :=
  Datum.mk 1694005200 2 1 0 0 (some []) 60 30 0 0 "ml6"

/-- A concrete two-point host bucket. -/
def hdC8 : HostData := HostData.mk "ml6" [datC8a, datC8b]

theorem c8_envelope_witness :
    ∃ ph, mkPerHost hdC8 = some ph ∧
      ph.hostname = hdC8.hostname ∧
      ph.start = formatDateTime datC8a.datetime ∧
      ph.endS = formatDateTime (datC8a.datetime + 3600) ∧
      ph.rcpu.map PerPoint.x = List.range hdC8.data.length ∧
      ph.rgpu.map PerPoint.x = List.range hdC8.data.length ∧
      ph.rmem.map PerPoint.x = List.range hdC8.data.length ∧
      ph.rgpumem.map PerPoint.x = List.range hdC8.data.length ∧
      ph.rcpu.map PerPoint.y = hdC8.data.map Datum.rcpu ∧
      ph.rgpu.map PerPoint.y = hdC8.data.map Datum.rgpu ∧
      ph.rmem.map PerPoint.y = hdC8.data.map Datum.rmem ∧
      ph.rgpumem.map PerPoint.y = hdC8.data.map Datum.rgpumem :=
  c8_envelope hdC8 datC8a [datC8b] rfl

/-- C8 counterexample: the envelope's key list is not the claimed
`hostname, tag, bucketing, date, rcpu, rmem, rgpu, rgpumem`, and the x
coordinates of a concrete two-point bucket are the integer indices 0 and
1, not timestamp strings. -/
theorem c8_keys_counterexample :
    perHostKeys ≠
      ["hostname", "tag", "bucketing", "date", "rcpu", "rmem", "rgpu", "rgpumem"] ∧
    (mkPerHost hdC8).map (fun ph => ph.rcpu.map PerPoint.x) = some [0, 1] :=
  ⟨by decide, by decide⟩

/-- C9 (amended): the gpus column maps `unknown` to the nil sentinel and
`none` to the empty set, and any other content leaves the row alive: the
row parses whenever the other typed fields parse, with the gpus value
obtained by splitting on commas and silently skipping every token that
ParseUint rejects (the claim's "anything else is a parse failure for the
row" does not hold — see the counterexample). -/
theorem c9_gpus_column :
    parseGpus "unknown" = none ∧
    parseGpus "none" = some [] ∧
    (∀ r host g dt cpu mem gpu gpumem rcpu rmem rgpu rgpumem,
      getDateTime r "datetime" = some dt →
      getFloat64 r "cpu" = some cpu →
      getFloat64 r "mem" = some mem →
      getFloat64 r "gpu" = some gpu →
      getFloat64 r "gpumem" = some gpumem →
      getFloat64 r "rcpu" = some rcpu →
      getFloat64 r "rmem" = some rmem →
      getFloat64 r "rgpu" = some rgpu →
      getFloat64 r "rgpumem" = some rgpumem →
      getString r "gpus" = some g →
      parseLoadDatum r host =
        some (Datum.mk dt cpu mem gpu gpumem (parseGpus g) rcpu rmem rgpu
          rgpumem host)) := by
  refine ⟨by decide, by decide, ?_⟩
  intro r host g dt cpu mem gpu gpumem rcpu rmem rgpu rgpumem
  intro h1 h2 h3 h4 h5 h6 h7 h8 h9 h10
  unfold parseLoadDatum
  rw [h1, h2, h3, h4, h5, h6, h7, h8, h9, h10]
  rfl

/-- A load-output row whose gpus column holds a malformed token between two
valid ones. -/
def rowC9 : RawRow :=
  [("host", "ml6"), ("datetime", "2023-09-06 12:00"), ("cpu", "1"), ("mem", "1"),
   ("gpu", "0"), ("gpumem", "0"), ("rcpu", "1"), ("rmem", "1"), ("rgpu", "0"),
   ("rgpumem", "0"), ("gpus", "1,garbage,2")]

/-- C9 counterexample: the gpus column `1,garbage,2` is neither `unknown`,
`none`, nor a comma-separated list of unsigned integers, yet the row is
NOT a parse failure: it survives with the garbage token silently skipped,
gpus = [1, 2]. -/
theorem c9_bad_token_counterexample :
    (parseLoadDatum rowC9 "ml6").isSome = true ∧
    (parseLoadDatum rowC9 "ml6").map Datum.gpus = some (some [1, 2]) :=
  ⟨by decide, by decide⟩

/-- A row whose host field parses but whose datetime does not. -/
def rowC10 : RawRow := [("host", "ml7"), ("datetime", "notatime")]

/-- C10: a host whose rows all fail after the host field still opens a
bucket, and that bucket is emitted EMPTY by parseOutput; writePlots'
unguarded `hd.data[0]` access on it is then out of range (Go run-time
panic, modelled none) — the claimed invariant "every host bucket contains
at least one data point" is false. -/
theorem c10_empty_bucket_panics :
    parseOutput [rowC10] = [HostData.mk "ml7" []] ∧
    writePlots (parseOutput [rowC10]) = none :=
  ⟨by decide, by decide⟩
